import Mathlib

/-!
Verification of the `tokenstream` library (a token stream for handwritten
parsers).  The Python sources under `tokenstream/` are shallowly embedded:
strings are `List Char`, the mutable `TokenStream` dataclass becomes an
explicit `StreamState` record, the `generate_tokens` generator becomes a
small-step machine (`GenState`, `genNext`) resumed once per yielded token,
and possibly non-terminating driver loops take an explicit fuel argument.
Regex patterns are embedded by their matching semantics: a pattern is a
function returning the length matched at a position, and the three implicit
trailing rules (`newline`, `whitespace`, `invalid`) get their concrete
semantics.
-/

namespace Tokenstream

/-- Text is modelled as a list of characters (Python strings are sequences
of code points). -/
abbrev Text := List Char

/-- `location.SourceLocation`: a named tuple `(pos, lineno, colno)`.
Python integers are modelled as `Int` (the unknown sentinel has `pos = -1`). -/
structure SourceLocation where
  pos : Int
  lineno : Int
  colno : Int
  deriving DecidableEq, Repr

/-- Python tuple comparison `<` on `(pos, lineno, colno)`, lexicographic. -/
def SourceLocation.lt (a b : SourceLocation) : Prop :=
  a.pos < b.pos ∨ (a.pos = b.pos ∧
    (a.lineno < b.lineno ∨ (a.lineno = b.lineno ∧ a.colno < b.colno)))

instance (a b : SourceLocation) : Decidable (SourceLocation.lt a b) :=
  inferInstanceAs (Decidable (a.pos < b.pos ∨ (a.pos = b.pos ∧
    (a.lineno < b.lineno ∨ (a.lineno = b.lineno ∧ a.colno < b.colno)))))

/-- Python tuple comparison `<=` on locations. -/
def SourceLocation.le (a b : SourceLocation) : Prop :=
  SourceLocation.lt a b ∨ a = b

instance (a b : SourceLocation) : Decidable (SourceLocation.le a b) :=
  inferInstanceAs (Decidable (SourceLocation.lt a b ∨ a = b))

/-- Python `max(a, b)` on two locations: returns `a` unless `a < b`. -/
def SourceLocation.pymax (a b : SourceLocation) : SourceLocation :=
  if SourceLocation.lt a b then b else a

/-- `location.INITIAL_LOCATION`. -/
def INITIAL_LOCATION : SourceLocation := ⟨0, 1, 1⟩

/-- `location.UNKNOWN_LOCATION`. -/
def UNKNOWN_LOCATION : SourceLocation := ⟨-1, 0, 0⟩

/-- `SourceLocation.unknown`: whether the position is negative. -/
def SourceLocation.unknown (l : SourceLocation) : Bool := l.pos < 0

/-- Last index of a newline character in `value`, or `-1` (Python
`value.rfind("\n")`). -/
def rfindNewline (value : Text) : Int :=
  match value with
  | [] => -1
  | c :: rest =>
    let r := rfindNewline rest
    if r ≥ 0 then r + 1
    else if c = '\n' then 0 else -1

/-- `SourceLocation.skip_over`: the location after skipping over `value`. -/
def SourceLocation.skip_over (self : SourceLocation) (value : Text) : SourceLocation :=
  { pos := self.pos + value.length,
    lineno := self.lineno + value.count '\n',
    colno :=
      if rfindNewline value = -1 then self.colno + value.length
      else (value.length : Int) - rfindNewline value }

/-- Python `bisect.bisect_right` on a list of locations, the actual binary
search (`lo = 0`, `hi = len`; loop while `lo < hi`).  The fuel argument is
an upper bound on the number of iterations; `a.length + 1` always suffices
because `hi - lo` shrinks at every step. -/
def bisectGo (a : List SourceLocation) (x : SourceLocation) : Nat → Nat → Nat → Nat
  | 0, lo, _ => lo
  | fuel + 1, lo, hi =>
    if lo < hi then
      let mid := (lo + hi) / 2
      if SourceLocation.lt x (a.getD mid UNKNOWN_LOCATION) then bisectGo a x fuel lo mid
      else bisectGo a x fuel (mid + 1) hi
    else lo

/-- `bisect(a, x)` as used by `SourceLocation.map`. -/
def bisect (a : List SourceLocation) (x : SourceLocation) : Nat :=
  bisectGo a x (a.length + 1) 0 a.length

/-- `SourceLocation.relocate`: rebase the location from `base_location`
onto `target_location`. -/
def SourceLocation.relocate (self base_location target_location : SourceLocation) :
    SourceLocation :=
  let pos := target_location.pos + (self.pos - base_location.pos)
  let lineno := target_location.lineno + (self.lineno - base_location.lineno)
  let colno :=
    if lineno = target_location.lineno then
      target_location.colno + (self.colno - base_location.colno)
    else self.colno
  ⟨pos, lineno, colno⟩

/-- `SourceLocation.map`: project a location through the mapping tables.
`index = bisect(input_mappings, self) - 1`; negative index returns the
location unchanged. -/
def SourceLocation.map (self : SourceLocation)
    (input_mappings output_mappings : List SourceLocation) : SourceLocation :=
  let index : Int := (bisect input_mappings self : Int) - 1
  if index < 0 then self
  else
    SourceLocation.relocate self
      (input_mappings.getD index.toNat UNKNOWN_LOCATION)
      (output_mappings.getD index.toNat UNKNOWN_LOCATION)

/-- A location argument of `location.set_location`: either a plain
`SourceLocation` or an object carrying `location` / `end_location`
attributes (a token or an error). -/
inductive LocArg where
  | sl (l : SourceLocation)
  | obj (location end_location : SourceLocation)

/-- `location.set_location`, restricted to its effect on the `location` and
`end_location` attributes of the target object (`objLocation`, `objEnd` are
the object's current attributes; the result is the updated pair).  Mirrors
the branch structure of the Python function; both argument defaults are
`.sl UNKNOWN_LOCATION`. -/
def set_location (objLocation objEnd : SourceLocation)
    (location end_location : LocArg) : SourceLocation × SourceLocation :=
  let end1 : SourceLocation :=
    match end_location with
    | .sl l => l
    | .obj _ e => e
  let pair : SourceLocation × SourceLocation :=
    match location with
    | .sl l => (l, end1)
    | .obj l e => (l, if end1.unknown then e else end1)
  let loc2 := if pair.1.unknown then objLocation else pair.1
  let end2 := if pair.2.unknown then objEnd else pair.2
  (loc2, SourceLocation.pymax loc2 end2)

/-- A token pattern: a bare type name or a `(type, value)` pair. -/
inductive TokenPattern where
  | type (name : String)
  | typeValue (name : String) (value : Text)
  deriving DecidableEq, Repr

/-- `token.Token`: type tag, matched text, start and end location. -/
structure Token where
  type : String
  value : Text
  location : SourceLocation
  end_location : SourceLocation
  deriving DecidableEq, Repr

/-- `Token.match`: the token matches when any pattern matches (type-only or
type and exact value); with zero patterns the loop body never runs and the
function returns `False`. -/
def Token.matchPatterns (t : Token) (patterns : List TokenPattern) : Bool :=
  patterns.any fun p =>
    match p with
    | .type name => t.type == name
    | .typeValue name value => t.type == name && t.value == value

/-! ## Error taxonomy (`error.py`) and the `choose` merge logic -/

/-- The three exception classes of the `InvalidSyntax` family. -/
inductive ErrKind where
  | invalidSyntax
  | unexpectedEOF
  | unexpectedToken
  deriving DecidableEq, Repr

/-- An `InvalidSyntax` exception as seen by `choose`'s merging: its class,
its location, its `expected_patterns`, and its `alternatives` bag (a list of
`(class, error)` pairs; Python's mutual mutation creates reference cycles,
which this pure model renders by attaching a snapshot of the other error). -/
inductive ChooseError where
  | mk (kind : ErrKind) (location : SourceLocation)
      (expected_patterns : List TokenPattern)
      (alternatives : List (ErrKind × ChooseError))

def ChooseError.kind : ChooseError → ErrKind
  | .mk k _ _ _ => k

def ChooseError.location : ChooseError → SourceLocation
  | .mk _ l _ _ => l

def ChooseError.expected_patterns : ChooseError → List TokenPattern
  | .mk _ _ p _ => p

def ChooseError.alternatives : ChooseError → List (ErrKind × ChooseError)
  | .mk _ _ _ a => a

def ChooseError.withPatterns : ChooseError → List TokenPattern → ChooseError
  | .mk k l _ a, p => .mk k l p a

def ChooseError.pushAlt : ChooseError → ErrKind × ChooseError → ChooseError
  | .mk k l p a, e => .mk k l p (a ++ [e])

/-- `InvalidSyntax.add_alternative` with the `UnexpectedEOF` /
`UnexpectedToken` overrides: two errors of the same non-generic class at the
same location pool their `expected_patterns` (both objects are updated);
otherwise each error is appended to the other's `alternatives`.  Returns the
updated `(self, exc)` pair. -/
def ChooseError.add_alternative (self exc : ChooseError) : ChooseError × ChooseError :=
  if self.kind ≠ ErrKind.invalidSyntax ∧ self.kind = exc.kind ∧
      self.location = exc.location then
    let patterns := self.expected_patterns ++ exc.expected_patterns
    (self.withPatterns patterns, exc.withPatterns patterns)
  else
    (self.pushAlt (exc.kind, exc), exc.pushAlt (self.kind, self))

/-- One failing option inside `TokenStream.choose`: merge `exc` into the
running best `exception` (`exception.add_alternative(exc)`, then the error
at the strictly greater location becomes the new representative). -/
def chooseMerge (exception : Option ChooseError) (exc : ChooseError) : ChooseError :=
  match exception with
  | none => exc
  | some prev =>
    let p := prev.add_alternative exc
    if SourceLocation.lt p.1.location p.2.location then p.2 else p.1

/-- Outcome of one option of `choose`: its scope either completes or raises
a syntax error. -/
inductive ChooseOutcome where
  | success
  | failure (e : ChooseError)

/-- `TokenStream.choose` viewed through its exception flow.  All options but
the last run inside `alternative(True)`, whose checkpoint swallows the
re-raised running best; the last runs inside `alternative(False)`, a
pass-through, so its `raise exception from None` propagates.  Result: the
exception that reaches the caller (`none` when some option succeeds, the
merged best when every option fails). -/
def chooseGo (exception : Option ChooseError) : List ChooseOutcome → Option ChooseError
  | [] => none
  | [o] =>
    match o with
    | .success => none
    | .failure exc => some (chooseMerge exception exc)
  | o :: rest =>
    match o with
    | .success => none
    | .failure exc => chooseGo (some (chooseMerge exception exc)) rest

/-! ## The stream (`stream.py`) -/

/-- A regex rule pattern, embedded by its matching semantics: at position
`pos` of `text` it either matches a prefix of the given length or fails.
(Python compiles pattern source strings with `re`; only the matching
behaviour of the compiled pattern is observable through the stream.) -/
abbrev Matcher := Text → Nat → Option Nat

/-- Semantics of the implicit rule `newline`, pattern `\r?\n` (greedy:
the optional `\r` branch is tried first). -/
def newlineMatcher : Matcher := fun text pos =>
  match text.drop pos with
  | '\r' :: '\n' :: _ => some 2
  | '\n' :: _ => some 1
  | _ => none

/-- Semantics of the implicit rule `whitespace`, pattern `[ \t]+`. -/
def whitespaceMatcher : Matcher := fun text pos =>
  let n := ((text.drop pos).takeWhile fun c => c == ' ' || c == '\t').length
  if n == 0 then none else some n

/-- Semantics of the implicit catch-all rule `invalid`, pattern `.+`
(`.` matches any character except a newline; greedy). -/
def invalidMatcher : Matcher := fun text pos =>
  let n := ((text.drop pos).takeWhile fun c => !(c == '\n')).length
  if n == 0 then none else some n

/-- The two implicit trailing rules plus the catch-all, in the order
`bake_regex` appends them. -/
def implicitRules : List (String × Matcher) :=
  [("newline", newlineMatcher), ("whitespace", whitespaceMatcher),
   ("invalid", invalidMatcher)]

/-- The alternation compiled by `bake_regex` from a rule tuple: the scope's
rules in declaration order followed by the implicit rules.  (The process-wide
`BAKED_REGEX_CACHE` only memoizes this pure computation and is omitted.) -/
def bakeRules (syntax_rules : List (String × Matcher)) : List (String × Matcher) :=
  syntax_rules ++ implicitRules

/-- A successful `regex.match`: the name of the group that matched
(`match.lastgroup`) and the matched text (`match.group()`). -/
structure Matched where
  lastgroup : String
  text : Text
  deriving DecidableEq, Repr

/-- Matching the baked alternation at a position: the first alternative that
matches wins (Python `re` alternation semantics). -/
def regexMatch (regex : List (String × Matcher)) (text : Text) (pos : Nat) :
    Option Matched :=
  match regex with
  | [] => none
  | (name, matcher) :: rest =>
    match matcher text pos with
    | some n => some ⟨name, (text.drop pos).take n⟩
    | none => regexMatch rest text pos

/-- Length of Python `value.expandtabs()` (tab size 8): a tab advances to
the next multiple of 8, `\n` and `\r` reset the column. -/
def expandtabsLen : Text → Nat → Nat
  | [], _ => 0
  | c :: rest, col =>
    if c = '\t' then
      let k := 8 - col % 8
      k + expandtabsLen rest (col + k)
    else if c = '\n' ∨ c = '\r' then 1 + expandtabsLen rest 0
    else 1 + expandtabsLen rest (col + 1)

/-- Control state of the `generate_tokens` generator between two yields:
either at the top of the main loop, in the middle of an `emit_dedent` run
(with the pending regex match of the upcoming token), about to emit the
matched token, flushing dedents at end of input, or exhausted. -/
inductive GenState where
  | run
  | wsDedent (level : Nat) (m : Matched)
  | nlDedent (m : Matched)
  | emitMatch (m : Matched)
  | flush
  | done

/-- The mutable state of a `TokenStream` (the dataclass fields that the
embedded operations read or write; `generator` becomes the explicit `gen`
control state, `data`/`regex_module` are never consulted by them). -/
structure StreamState where
  source : Text
  preprocessed_source : Text
  source_mappings : List SourceLocation
  preprocessed_mappings : List SourceLocation
  preprocessed_pos : Int
  preprocessed_lineno : Int
  preprocessed_colno : Int
  preprocessed_locations : List SourceLocation
  index : Int
  tokens : List Token
  indentation : List Nat
  indentation_skip : List String
  ignored_tokens : List String
  syntax_rules : List (String × Matcher)
  regex : List (String × Matcher)
  gen : GenState

/-- `TokenStream.bake_regex` (modulo the cache, which memoizes this pure
function): recompile `regex` from the current syntax rules. -/
def bakeRegex (s : StreamState) : StreamState :=
  { s with regex := bakeRules s.syntax_rules }

/-- `TokenStream.current`: `tokens[index]`, defined only when at least one
token has been extracted and the index is in range (Python raises
`IndexError` otherwise, modelled by `none`). -/
def currentToken (s : StreamState) : Option Token :=
  if s.index < 0 then none else s.tokens.get? s.index.toNat

/-- `TokenStream.emit_token`: build the token at the current preprocessed
position, advance the position over the value, project both coordinates
through the mapping tables, append the preprocessed end location and the
token, and point the index at the new token. -/
def emitToken (s : StreamState) (token_type : String) (value : Text) :
    StreamState × Token :=
  let location : SourceLocation :=
    ⟨s.preprocessed_pos, s.preprocessed_lineno, s.preprocessed_colno⟩
  let end_location := location.skip_over value
  let token : Token :=
    { type := token_type, value := value,
      location := location.map s.preprocessed_mappings s.source_mappings,
      end_location := end_location.map s.preprocessed_mappings s.source_mappings }
  let tokens := s.tokens ++ [token]
  ({ s with
      preprocessed_pos := end_location.pos,
      preprocessed_lineno := end_location.lineno,
      preprocessed_colno := end_location.colno,
      preprocessed_locations := s.preprocessed_locations ++ [end_location],
      tokens := tokens,
      index := (tokens.length : Int) - 1 }, token)

/-- `TokenStream.crop`: drop the buffered tokens (and their preprocessed end
locations) beyond the current index and rewind the preprocessed position to
the end of the current token, or to the start of input when no token has
been consumed. -/
def crop (s : StreamState) : StreamState :=
  let tokens := s.tokens.take (s.index + 1).toNat
  let preprocessed_locations := s.preprocessed_locations.take (s.index + 1).toNat
  let loc : SourceLocation :=
    if 0 ≤ s.index then preprocessed_locations.getD s.index.toNat ⟨0, 1, 1⟩
    else ⟨0, 1, 1⟩
  { s with
      tokens := tokens,
      preprocessed_locations := preprocessed_locations,
      preprocessed_pos := loc.pos,
      preprocessed_lineno := loc.lineno,
      preprocessed_colno := loc.colno }

/-- `TokenStream.emit_error`, restricted to the location attributes it sets
on the exception: stamp the error with the end location of the current token
(`INITIAL_LOCATION` when no token has been consumed).  `none` models the
`IndexError` of `current` on an out-of-range index. -/
def emit_error (s : StreamState) (excLocation excEnd : SourceLocation) :
    Option (SourceLocation × SourceLocation) :=
  if 0 ≤ s.index then
    match currentToken s with
    | some t =>
      some (set_location excLocation excEnd (.sl t.end_location) (.sl UNKNOWN_LOCATION))
    | none => none
  else
    some (set_location excLocation excEnd (.sl INITIAL_LOCATION) (.sl UNKNOWN_LOCATION))

/-- Result of resuming the generator once: a token was emitted (the new
state's `current`), the generator is exhausted (`StopIteration`), or the
generator crashed (`assert`/`IndexError`). -/
inductive GenRes where
  | emitted (s : StreamState)
  | stopIter
  | crash

/-- One pop of `emit_dedent`: emit a `dedent` token and pop the indentation
stack, resuming at `g`. -/
def popDedent (s : StreamState) (g : GenState) : StreamState :=
  let s' := (emitToken s "dedent" []).1
  { s' with indentation := s'.indentation.dropLast, gen := g }

/-- Emit an `indent` token and push `level`; the matched token is still
pending. -/
def pushIndent (s : StreamState) (level : Nat) (m : Matched) : StreamState :=
  let s' := (emitToken s "indent" []).1
  { s' with indentation := s'.indentation ++ [level], gen := .emitMatch m }

/-- Emit the pending matched token and return to the top of the loop. -/
def emitMatchTok (s : StreamState) (m : Matched) : StreamState :=
  let s' := (emitToken s m.lastgroup m.text).1
  { s' with gen := .run }

/-- Emit the final `eof` token; the generator is exhausted afterwards. -/
def emitEof (s : StreamState) : StreamState :=
  let s' := (emitToken s "eof" []).1
  { s' with gen := .done }

/-- `emit_dedent(level)` inside the leading-whitespace branch: pop while
`level` is below the top of the stack, then push an `indent` if `level`
exceeds the (new) top, else fall through to the matched token.  Reading
`indentation[-1]` on an empty stack is an `IndexError`. -/
def wsDedentStep (s : StreamState) (level : Nat) (m : Matched) : GenRes :=
  match s.indentation.getLast? with
  | some top =>
    if level < top then .emitted (popDedent s (.wsDedent level m))
    else if top < level then .emitted (pushIndent s level m)
    else .emitted (emitMatchTok s m)
  | none => .crash

/-- `emit_dedent()` (level 0) after a bare newline: pop while the top is
positive, then emit the matched token. -/
def nlDedentStep (s : StreamState) (m : Matched) : GenRes :=
  match s.indentation.getLast? with
  | some top =>
    if 0 < top then .emitted (popDedent s (.nlDedent m))
    else .emitted (emitMatchTok s m)
  | none => .emitted (emitMatchTok s m)

/-- The end-of-input flush: `yield from emit_dedent()` then the `eof`
token. -/
def flushStep (s : StreamState) : GenRes :=
  match s.indentation.getLast? with
  | some top =>
    if 0 < top then .emitted (popDedent s .flush)
    else .emitted (emitEof s)
  | none => .emitted (emitEof s)

/-- The top of the `while` loop of `generate_tokens`: match the baked regex
at the current position (the `assert match` failing is a crash), decide the
indentation branch by looking at the previously emitted token, and emit the
first token of the resulting sequence. -/
def runStep (s : StreamState) : GenRes :=
  if s.preprocessed_pos < (s.preprocessed_source.length : Int) then
    match regexMatch s.regex s.preprocessed_source s.preprocessed_pos.toNat with
    | none => .crash
    | some m =>
      if s.tokens.isEmpty || s.indentation.isEmpty then .emitted (emitMatchTok s m)
      else
        match currentToken s with
        | none => .crash
        | some cur =>
          if cur.type == "whitespace" && cur.location.colno == 1 &&
              !(s.indentation_skip.contains m.lastgroup) then
            wsDedentStep s (expandtabsLen cur.value 0) m
          else if cur.type == "newline" && m.lastgroup != "whitespace" &&
              m.lastgroup != "newline" then
            nlDedentStep s m
          else .emitted (emitMatchTok s m)
  else flushStep s

/-- `next(self.generator)`: resume `generate_tokens` until its next yield. -/
def genNext (s : StreamState) : GenRes :=
  match s.gen with
  | .run => runStep s
  | .wsDedent level m => wsDedentStep s level m
  | .nlDedent m => nlDedentStep s m
  | .emitMatch m => emitMatchTok s m |> .emitted
  | .flush => flushStep s
  | .done => .stopIter

/-- Result of `TokenStream.__next__`: the stream advanced to a non-ignored
token, raised `StopIteration`, or crashed; `outOfFuel` marks exhaustion of
the step budget (Python recursion that our embedding bounds explicitly). -/
inductive NextResult where
  | tok (s : StreamState)
  | stop (s : StreamState)
  | outOfFuel
  | crash

/-- The advancing step of `TokenStream.__next__`: replay the next buffered
token if there is one (`index + 1 < len(tokens)`), otherwise pull one from
the generator. -/
def advance (s : StreamState) : GenRes :=
  if s.index + 1 < (s.tokens.length : Int) then
    .emitted { s with index := s.index + 1 }
  else genNext s

/-- `TokenStream.__next__`: advance, then skip (recurse past) ignored token
types. -/
def nextTok : Nat → StreamState → NextResult
  | 0, _ => .outOfFuel
  | fuel + 1, s =>
    match advance s with
    | .emitted s' =>
      match currentToken s' with
      | some t =>
        if s'.ignored_tokens.contains t.type then nextTok fuel s' else .tok s'
      | none => .crash
    | .stopIter => .stop s
    | .crash => .crash

/-- Phase result of the backward (`n < 0`) part of `TokenStream.peek`. -/
inductive PeekPhase1 where
  | returnNone (s : StreamState)
  | proceed (s : StreamState) (tok : Option Token)

/-- The inner `while self.index > 0` loop of `peek`: step back one token at
a time until a non-ignored token is found (or the start is reached, keeping
the previously found token). -/
def peekBackInner : Nat → StreamState → Option Token →
    Option (StreamState × Option Token)
  | 0, _, _ => none
  | fuel + 1, s, tok =>
    if 0 < s.index then
      let s' := { s with index := s.index - 1 }
      match currentToken s' with
      | none => none
      | some t =>
        if s'.ignored_tokens.contains t.type then peekBackInner fuel s' tok
        else some (s', some t)
    else some (s, tok)

/-- The outer `while n < 0` loop of `peek`: returns `None` early when the
cursor is at (or before) the first token. -/
def peekBackOuter : Nat → Int → Option Token → StreamState → Option PeekPhase1
  | 0, _, _, _ => none
  | fuel + 1, n, tok, s =>
    if n < 0 then
      if s.index ≤ 0 then some (.returnNone s)
      else
        match peekBackInner fuel s tok with
        | none => none
        | some (s', tok') => peekBackOuter fuel (n + 1) tok' s'
    else some (.proceed s tok)

/-- The forward `for _ in range(n)` loop of `peek`: advance `n` times,
remembering the last token; an exhausted stream returns `None` outright. -/
def peekGo (fuel : Nat) : Nat → Option Token → StreamState →
    Option (Option Token × StreamState)
  | 0, tok, s => some (tok, s)
  | n + 1, _, s =>
    match nextTok fuel s with
    | .tok s' =>
      match currentToken s' with
      | some t => peekGo fuel n (some t) s'
      | none => none
    | .stop s' => some (none, s')
    | .outOfFuel => none
    | .crash => none

/-- `TokenStream.peek(n)`: look around the current token without moving the
cursor (the `finally` clause restores the saved index on every path). -/
def peek (fuel : Nat) (s : StreamState) (n : Int) :
    Option (Option Token × StreamState) :=
  let previous_index := s.index
  match peekBackOuter fuel n none s with
  | none => none
  | some (.returnNone s') => some (none, { s' with index := previous_index })
  | some (.proceed s' tok) =>
    match peekGo fuel n.toNat tok s' with
    | none => none
    | some (tok', s'') => some (tok', { s'' with index := previous_index })

/-- An exception raised by `expect` (location stamping is modelled
separately by `emit_error`). -/
inductive ExpectErr where
  | unexpectedToken (t : Token) (patterns : List TokenPattern)
  | unexpectedEOF (patterns : List TokenPattern)

/-- Result of `TokenStream.expect()`. -/
inductive ExpectRes where
  | ok (t : Token) (s : StreamState)
  | err (e : ExpectErr) (s : StreamState)
  | fail

/-- The token returned by an `ExpectRes`, if any. -/
def ExpectRes.returnedToken : ExpectRes → Option Token
  | .ok t _ => some t
  | _ => none

/-- `TokenStream.expect()` with no pattern: pull the first item of
`collect()` — the next non-ignored token, raising `UnexpectedToken` if it is
an `invalid` token; when the stream is exhausted, fall through to the
`peek`-guarded `UnexpectedToken` / `UnexpectedEOF` raise. -/
def expect0 (fuel : Nat) (s : StreamState) : ExpectRes :=
  match nextTok fuel s with
  | .tok s' =>
    match currentToken s' with
    | some t =>
      if t.matchPatterns [.type "invalid"] then .err (.unexpectedToken t []) s'
      else .ok t s'
    | none => .fail
  | .stop s' =>
    match peek fuel s' 1 with
    | some (some t, s'') => .err (.unexpectedToken t []) s''
    | some (none, s'') => .err (.unexpectedEOF []) s''
    | none => .fail
  | .outOfFuel => .fail
  | .crash => .fail

/-- Drive the generator to exhaustion (a full traversal to end of input);
`none` when the generator crashes or the fuel runs out. -/
def runGen : Nat → StreamState → Option StreamState
  | 0, _ => none
  | fuel + 1, s =>
    match genNext s with
    | .emitted s' => runGen fuel s'
    | .stopIter => some s
    | .crash => none

/-- `TokenStream.__post_init__` (plus the dataclass defaults): run the
preprocessor if given, otherwise take the source unchanged with empty
mapping tables; set the default ignored types and bake the (empty) rules. -/
def initStream (source : Text)
    (preprocessor : Option (Text → Text × List SourceLocation × List SourceLocation)) :
    StreamState :=
  let pre : Text × List SourceLocation × List SourceLocation :=
    match preprocessor with
    | some p => p source
    | none => (source, [], [])
  bakeRegex
    { source := source,
      preprocessed_source := pre.1,
      source_mappings := pre.2.1,
      preprocessed_mappings := pre.2.2,
      preprocessed_pos := 0, preprocessed_lineno := 1, preprocessed_colno := 1,
      preprocessed_locations := [],
      index := -1, tokens := [],
      indentation := [], indentation_skip := [],
      ignored_tokens := ["whitespace", "newline", "eof"],
      syntax_rules := [], regex := [], gen := .run }

/-- The new rule tuple computed on entry to `TokenStream.syntax`: default
the keyword arguments with the previous rules (insertion order preserved,
missing keys appended) and keep the truthy ones. -/
def newSyntaxRules (kwargs : List (String × Option Matcher))
    ( previous_syntax : List (String × Matcher)) : List (String × Matcher) :=
  let defaulted := previous_syntax.foldl
    (fun kw p => if kw.any fun q => q.1 == p.1 then kw else kw ++ [(p.1, some p.2)])
    kwargs
  defaulted.filterMap fun p => p.2.map fun m => (p.1, m)

/-- Entering a `TokenStream.syntax` scope: install the combined rules,
rebake the regex, and crop. -/
def syntaxEnter (s : StreamState) (kwargs : List (String × Option Matcher)) :
    StreamState :=
  crop (bakeRegex { s with syntax_rules := newSyntaxRules kwargs s.syntax_rules })

/-- Exiting a `TokenStream.syntax` scope (the `finally` block): restore the
saved rule tuple and the saved compiled regex, then crop. -/
def syntaxExit (s : StreamState)
    ( previous_syntax previous_regex : List (String × Matcher)) : StreamState :=
  crop { s with syntax_rules := previous_syntax, regex := previous_regex }

/-- A whole `with stream.syntax(**kwargs): body` block, for an arbitrary
body transforming the stream state. -/
def syntaxScope (s : StreamState) (kwargs : List (String × Option Matcher))
    (body : StreamState → StreamState) : StreamState :=
  syntaxExit (body (syntaxEnter s kwargs)) s.syntax_rules s.regex

/-! ## Checkpoints (`TokenStream.checkpoint`, `CheckpointCommit`) -/

/-- How the body of a `with stream.checkpoint()` block finished. -/
inductive BodyOutcome where
  | normal
  | invalidSyntax (e : ChooseError)
  | otherError

/-- What the body of a checkpoint scope did: the stream state it left
behind, the final value of `commit.rollback` (`false` exactly when the
handle was invoked), and how it finished. -/
structure CheckpointBody where
  state : StreamState
  rollback : Bool
  outcome : BodyOutcome

/-- The `except InvalidSyntax` / `finally` epilogue of
`TokenStream.checkpoint`: swallow a syntax error unless the handle was
invoked, and rewind the index to the saved one exactly when the handle was
never invoked. -/
def checkpointExit (commit_index : Int) (b : CheckpointBody) :
    StreamState × BodyOutcome :=
  let outcome :=
    match b.outcome with
    | .invalidSyntax e => if b.rollback then .normal else .invalidSyntax e
    | o => o
  let state := if b.rollback then { b.state with index := commit_index } else b.state
  (state, outcome)

/-- A whole `with stream.checkpoint() as commit: body` block: the handle is
created with the entry index, the body runs (receiving that index), and the
epilogue applies. -/
def checkpointScope (s : StreamState) (body : Int → CheckpointBody) :
    StreamState × BodyOutcome :=
  checkpointExit s.index (body s.index)

/-- Count of tokens of a given type in a token list. -/
def countT (ty : String) (ts : List Token) : Nat :=
  ts.countP fun t => t.type == ty

/-- Entering `TokenStream.indent(enable, skip)`: install a fresh stack
(`[0]` when enabled, empty when disabled), add the given skip types plus
`newline` (Python builds `set(skip) | ("newline",)`; only membership is
observable), and crop. -/
def indentEnter (s : StreamState) (enable : Bool) (skip : List String) :
    StreamState :=
  crop { s with
    indentation := if enable then [0] else [],
    indentation_skip := skip ++ ["newline"] }

/-! ## Well-formedness predicates used by the theorems -/

/-- A matcher that never matches the empty string (the semantics of a regex
pattern that cannot match zero characters). -/
def MatcherNonNullable (f : Matcher) : Prop :=
  ∀ text pos n, f text pos = some n → 1 ≤ n

/-- Every rule of the set is non-nullable. -/
def NonNullable (rules : List (String × Matcher)) : Prop :=
  ∀ p ∈ rules, MatcherNonNullable p.2

/-- No rule of the compiled alternation is named like a synthesized
indentation token. -/
def GoodNames (regex : List (String × Matcher)) : Prop :=
  ∀ p ∈ regex, p.1 ≠ "indent" ∧ p.1 ≠ "dedent"

/-- The pending regex match held by the generator control state, if any, is
not named like a synthesized indentation token. -/
def GoodGen : GenState → Prop
  | .wsDedent _ m => m.lastgroup ≠ "indent" ∧ m.lastgroup ≠ "dedent"
  | .nlDedent m => m.lastgroup ≠ "indent" ∧ m.lastgroup ≠ "dedent"
  | .emitMatch m => m.lastgroup ≠ "indent" ∧ m.lastgroup ≠ "dedent"
  | _ => True

/-- Invariant of the generator while indentation is enabled: the stack's
bottom entry is 0, every entry above it is positive, and the indent/dedent
token counts are in balance with the stack height. -/
def IndentInv (s : StreamState) : Prop :=
  s.indentation.head? = some 0 ∧
  (∀ x ∈ s.indentation.tail, 0 < x) ∧
  countT "indent" s.tokens + 1 = countT "dedent" s.tokens + s.indentation.length ∧
  GoodNames s.regex ∧
  GoodGen s.gen ∧
  (s.gen = .done → s.indentation = [0])

/-- A cursor that points into the buffer (or just before it): every state
reachable through the public stream operations satisfies this. -/
def ValidCursor (s : StreamState) : Prop :=
  -1 ≤ s.index ∧ s.index < (s.tokens.length : Int)

/-- The state emitted by one generator resume, if any. -/
def genNextState (s : StreamState) : Option StreamState :=
  match genNext s with
  | .emitted s' => some s'
  | _ => none

/-! ## Concrete instances used by counterexamples and witnesses -/

/-- Semantics of the rule pattern `[a-z]+`. -/
def wordMatcher : Matcher := fun text pos =>
  let n := ((text.drop pos).takeWhile fun c => 'a' ≤ c && c ≤ 'z').length
  if n == 0 then none else some n

/-- Semantics of the rule pattern `[0-9]+`. -/
def numberMatcher : Matcher := fun text pos =>
  let n := ((text.drop pos).takeWhile fun c => '0' ≤ c && c ≤ '9').length
  if n == 0 then none else some n

/-- Semantics of the nullable rule pattern `[a-z]*`. -/
def wordStarMatcher : Matcher := fun text pos =>
  some ((text.drop pos).takeWhile fun c => 'a' ≤ c && c ≤ 'z').length

/-- A stream over `"foo"` recognizing only numbers: its first token is an
`invalid` token. -/
def c2stream : StreamState :=
  syntaxEnter (initStream ("foo".data) none) [("number", some numberMatcher)]

/-- The `invalid` token produced at the head of `c2stream`. -/
def c2token : Token :=
  { type := "invalid", value := "foo".data,
    location := ⟨0, 1, 1⟩, end_location := ⟨3, 1, 4⟩ }

/-- The state left behind by `peek(1)` on `c2stream`. -/
def c2mid : StreamState :=
  match peek 10 c2stream 1 with
  | some p => p.2
  | none => c2stream

/-- A stream over `"hello world"` recognizing words. -/
def helloStream : StreamState :=
  syntaxEnter (initStream ("hello world".data) none) [("word", some wordMatcher)]

/-- The first word token of `helloStream`. -/
def helloToken : Token :=
  { type := "word", value := "hello".data,
    location := ⟨0, 1, 1⟩, end_location := ⟨5, 1, 6⟩ }

/-- The state left behind by `peek(1)` on `helloStream`. -/
def helloMid : StreamState :=
  match peek 10 helloStream 1 with
  | some p => p.2
  | none => helloStream

/-- Errors raised by two options of a `choose` call: the first fails further
into the input than the second (last) one. -/
def c1e1 : ChooseError := .mk .unexpectedToken ⟨5, 1, 6⟩ [.type "word"] []

/-- See `c1e1`. -/
def c1e2 : ChooseError := .mk .unexpectedToken ⟨3, 1, 4⟩ [.type "number"] []

/-- A syntax error used by the checkpoint witness. -/
def c3err : ChooseError := .mk .invalidSyntax ⟨0, 1, 1⟩ [] []

/-- A checkpoint body that advances the index, never invokes the commit
handle, and raises a syntax error. -/
def c3body : Int → CheckpointBody :=
  fun _ => ⟨{ helloStream with index := 5 }, true, .invalidSyntax c3err⟩

/-- The indentation scenario `"a\n\tb\nc"` with a single `word` rule and
indentation enabled. -/
def c4stream : StreamState :=
  indentEnter
    (syntaxEnter (initStream ("a\n\tb\nc".data) none) [("word", some wordMatcher)])
    true []

/-- A stream whose only rule is nullable (`[a-z]*`) over the input `"1"`:
the match step matches the empty string and does not advance. -/
def c6state : StreamState :=
  syntaxEnter (initStream ("1".data) none) [("word", some wordStarMatcher)]

/-- A stream state mid-lex under a preprocessor that inserted two characters
(`"ab"` became `"XXab"`): the divergence point `(2,1,3)` of the preprocessed
text corresponds to `(0,1,1)` of the source.  Both mapping sequences are
sorted, as the data model requires. -/
def c9state : StreamState :=
  { initStream ("ab".data) none with
    preprocessed_source := "XXab".data,
    preprocessed_mappings := [⟨2, 1, 3⟩],
    source_mappings := [⟨0, 1, 1⟩],
    preprocessed_pos := 1, preprocessed_lineno := 1, preprocessed_colno := 2 }

/-! # Theorems -/

theorem le_pymax (a b : SourceLocation) : SourceLocation.le a (a.pymax b) := by
  unfold SourceLocation.pymax
  split
  · exact Or.inl (by assumption)
  · exact Or.inr rfl

theorem skip_over_le (l : SourceLocation) (v : Text) :
    SourceLocation.le l (l.skip_over v) := by
  cases v with
  | nil =>
    refine Or.inr ?_
    cases l
    simp [SourceLocation.skip_over, rfindNewline]
  | cons c cs =>
    refine Or.inl (Or.inl ?_)
    show l.pos < l.pos + ((c :: cs).length : Int)
    simp only [List.length_cons]
    omega

theorem map_nil (l : SourceLocation) (out : List SourceLocation) :
    SourceLocation.map l [] out = l := rfl

theorem set_location_fst_known (objL objE l : SourceLocation) (hl : 0 ≤ l.pos) :
    (set_location objL objE (.sl l) (.sl UNKNOWN_LOCATION)).1 = l := by
  simp only [set_location, SourceLocation.unknown]
  rw [if_neg]
  simp only [decide_eq_true_eq]
  omega

/-- Claim C10: `Token.match` with zero patterns returns `False` for every
token; accordingly the zero-pattern form of `expect` matches tokens by
special-casing — on a concrete stream it returns a token that `match`
itself rejects against the empty pattern list. -/
theorem claim_c10 :
    (∀ t : Token, t.matchPatterns [] = false) ∧
    (expect0 20 helloStream).returnedToken = some helloToken ∧
    helloToken.matchPatterns [] = false :=
  ⟨fun _ => rfl, rfl, rfl⟩

/-- Claim C7: `SourceLocation.map` with empty mapping sequences returns the
location unchanged, and a stream built with the identity preprocessor
(source unchanged, empty mappings) is identical to one built with no
preprocessor — in particular a full traversal emits identical tokens with
identical locations. -/
theorem claim_c7 :
    (∀ l : SourceLocation, SourceLocation.map l [] [] = l) ∧
    (∀ source : Text,
      initStream source (some fun t => (t, [], [])) = initStream source none) ∧
    (∀ (source : Text) (fuel : Nat),
      runGen fuel (initStream source (some fun t => (t, [], []))) =
        runGen fuel (initStream source none)) :=
  ⟨fun _ => rfl, fun _ => rfl, fun _ _ => rfl⟩

/-- Claim C8: `emit_error` stamps the exception with the end location of the
current token when at least one token has been consumed, and with the start
of input `(0, 1, 1)` when none has. -/
theorem claim_c8 :
    (∀ (s : StreamState) (eL eE : SourceLocation) (t : Token),
        currentToken s = some t → 0 ≤ t.end_location.pos →
        ∃ r, emit_error s eL eE = some r ∧ r.1 = t.end_location) ∧
    (∀ (s : StreamState) (eL eE : SourceLocation), s.index < 0 →
        ∃ r, emit_error s eL eE = some r ∧ r.1 = INITIAL_LOCATION) := by
  constructor
  · intro s eL eE t ht hpos
    have hidx : ¬ s.index < 0 := by
      intro hlt
      unfold currentToken at ht
      rw [if_pos hlt] at ht
      exact Option.noConfusion ht
    refine ⟨_, ?_, set_location_fst_known eL eE t.end_location hpos⟩
    unfold emit_error
    rw [if_pos (Int.not_lt.mp hidx), ht]
  · intro s eL eE hidx
    refine ⟨_, ?_, set_location_fst_known eL eE INITIAL_LOCATION (by decide)⟩
    unfold emit_error
    rw [if_neg (Int.not_le.mpr hidx)]

/-- Witness for C8: on a concrete stream that consumed a word and another
that consumed nothing. -/
theorem claim_c8_witness :
    (∃ r, emit_error { helloStream with tokens := [helloToken], index := 0 }
        UNKNOWN_LOCATION UNKNOWN_LOCATION = some r ∧ r.1 = helloToken.end_location) ∧
    (∃ r, emit_error helloStream UNKNOWN_LOCATION UNKNOWN_LOCATION = some r ∧
        r.1 = INITIAL_LOCATION) :=
  ⟨claim_c8.1 { helloStream with tokens := [helloToken], index := 0 }
      UNKNOWN_LOCATION UNKNOWN_LOCATION helloToken rfl (by decide),
   claim_c8.2 helloStream UNKNOWN_LOCATION UNKNOWN_LOCATION (by decide)⟩

/-- Claim C9 (amended): `end_location ≥ location` lexicographically holds
for the result of `skip_over`, hence for every token emitted while the
mapping sequences are empty (no preprocessor), and for everything returned
by `set_location` — even when the supplied end location is smaller than the
supplied start location, thanks to the `max`. -/
theorem claim_c9 :
    (∀ (l : SourceLocation) (v : Text), SourceLocation.le l (l.skip_over v)) ∧
    (∀ (s : StreamState) (ty : String) (v : Text), s.preprocessed_mappings = [] →
        SourceLocation.le (emitToken s ty v).2.location (emitToken s ty v).2.end_location) ∧
    (∀ (objL objE : SourceLocation) (la ea : LocArg),
        SourceLocation.le (set_location objL objE la ea).1
          (set_location objL objE la ea).2) := by
  refine ⟨skip_over_le, ?_, ?_⟩
  · intro s ty v hmap
    show SourceLocation.le
      (SourceLocation.map ⟨s.preprocessed_pos, s.preprocessed_lineno, s.preprocessed_colno⟩
        s.preprocessed_mappings s.source_mappings)
      (SourceLocation.map
        (SourceLocation.skip_over ⟨s.preprocessed_pos, s.preprocessed_lineno, s.preprocessed_colno⟩ v)
        s.preprocessed_mappings s.source_mappings)
    rw [hmap, map_nil, map_nil]
    exact skip_over_le _ v
  · intro objL objE la ea
    exact le_pymax _ _

/-- Witness for C9: a token emitted by a concrete preprocessor-less
stream. -/
theorem claim_c9_witness :
    SourceLocation.le (emitToken helloStream "word" ("hello".data)).2.location
      (emitToken helloStream "word" ("hello".data)).2.end_location :=
  claim_c9.2.1 helloStream "word" ("hello".data) rfl

/-- Counterexample for C9 as stated: under a preprocessor that inserted two
characters (sorted, parallel mapping sequences), `emit_token` emits a token
whose end location is strictly smaller than its location. -/
theorem claim_c9_counterexample :
    (emitToken c9state "word" ['X']).2.location = ⟨1, 1, 2⟩ ∧
    (emitToken c9state "word" ['X']).2.end_location = ⟨0, 1, 1⟩ ∧
    ¬ SourceLocation.le (emitToken c9state "word" ['X']).2.location
        (emitToken c9state "word" ['X']).2.end_location := by
  exact ⟨rfl, rfl, by decide⟩

/-- Claim C3: a checkpoint whose commit handle was never invoked rewinds the
cursor to the saved index on exit, keeps the buffered tokens, and swallows a
raised syntax error; once the handle was invoked, a syntax error is
re-raised and no rewind happens. -/
theorem claim_c3 (s : StreamState) (body : Int → CheckpointBody) :
    ((body s.index).rollback = true →
        (checkpointScope s body).1.index = s.index ∧
        (checkpointScope s body).1.tokens = (body s.index).state.tokens ∧
        ∀ e, (body s.index).outcome = .invalidSyntax e →
          (checkpointScope s body).2 = .normal) ∧
    ((body s.index).rollback = false →
        ∀ e, (body s.index).outcome = .invalidSyntax e →
          (checkpointScope s body).2 = .invalidSyntax e ∧
          (checkpointScope s body).1 = (body s.index).state) := by
  constructor
  · intro hr
    refine ⟨?_, ?_, ?_⟩
    · simp [checkpointScope, checkpointExit, hr]
    · simp [checkpointScope, checkpointExit, hr]
    · intro e he
      simp [checkpointScope, checkpointExit, hr, he]
  · intro hr e he
    simp [checkpointScope, checkpointExit, hr, he]

/-- Witness for C3: a body that advances the cursor, never commits, and
raises a syntax error — the error is swallowed and the cursor rewound. -/
theorem claim_c3_witness :
    (checkpointScope helloStream c3body).1.index = helloStream.index ∧
    (checkpointScope helloStream c3body).2 = .normal := by
  have h := claim_c3 helloStream c3body
  exact ⟨(h.1 rfl).1, (h.1 rfl).2.2 c3err rfl⟩

theorem withPatterns_location (a : ChooseError) (p : List TokenPattern) :
    (a.withPatterns p).location = a.location := by
  cases a
  rfl

theorem pushAlt_location (a : ChooseError) (e : ErrKind × ChooseError) :
    (a.pushAlt e).location = a.location := by
  cases a
  rfl

theorem add_alternative_location (a b : ChooseError) :
    (a.add_alternative b).1.location = a.location ∧
    (a.add_alternative b).2.location = b.location := by
  unfold ChooseError.add_alternative
  split
  · exact ⟨withPatterns_location a _, withPatterns_location b _⟩
  · exact ⟨pushAlt_location a _, pushAlt_location b _⟩

theorem chooseMerge_some_location (b e : ChooseError) :
    (chooseMerge (some b) e).location =
      if SourceLocation.lt b.location e.location then e.location else b.location := by
  unfold chooseMerge
  have h := add_alternative_location b e
  rcases h with ⟨h1, h2⟩
  simp only [h1, h2]
  split <;> simp [h1, h2, *]

theorem chooseGo_some_failures (b : ChooseError) (es : List ChooseError) (hne : es ≠ []) :
    ∃ r, chooseGo (some b) (es.map ChooseOutcome.failure) = some r ∧
      r.location = es.foldl
        (fun acc x => if SourceLocation.lt acc x.location then x.location else acc)
        b.location := by
  induction es generalizing b with
  | nil => exact absurd rfl hne
  | cons x xs ih =>
    cases xs with
    | nil =>
      refine ⟨chooseMerge (some b) x, rfl, ?_⟩
      simpa using chooseMerge_some_location b x
    | cons y ys =>
      have hstep :
          chooseGo (some b) ((x :: y :: ys).map ChooseOutcome.failure) =
            chooseGo (some (chooseMerge (some b) x)) ((y :: ys).map ChooseOutcome.failure) := rfl
      rcases ih (chooseMerge (some b) x) (by simp) with ⟨r, hr, hloc⟩
      refine ⟨r, by rw [hstep]; exact hr, ?_⟩
      rw [hloc, chooseMerge_some_location]
      rfl

/-- Claim C1 (amended): when every option of `choose` fails, the exception
that propagates to the caller is the running best error after also merging
the last option's error — the error whose location is greatest, with
earlier options winning ties; the last option's own error propagates only
when its location is strictly greater than the best of the earlier ones. -/
theorem claim_c1 (e : ChooseError) (es : List ChooseError) :
    ∃ r, chooseGo none ((e :: es).map ChooseOutcome.failure) = some r ∧
      r.location = es.foldl
        (fun acc x => if SourceLocation.lt acc x.location then x.location else acc)
        e.location := by
  cases es with
  | nil => exact ⟨e, rfl, rfl⟩
  | cons y ys =>
    have hstep :
        chooseGo none ((e :: y :: ys).map ChooseOutcome.failure) =
          chooseGo (some e) ((y :: ys).map ChooseOutcome.failure) := rfl
    rcases chooseGo_some_failures e (y :: ys) (by simp) with ⟨r, hr, hloc⟩
    exact ⟨r, by rw [hstep]; exact hr, hloc⟩

/-- Counterexample for C1 as stated: two failing options where the first
fails further into the input; the propagated exception is the first
option's error (location `(5,1,6)`), not the last option's error raised
as-is (its location is `(3,1,4)`), and it carries the merged alternative. -/
theorem claim_c1_counterexample :
    (chooseGo none [ChooseOutcome.failure c1e1, ChooseOutcome.failure c1e2]).map
        ChooseError.location = some ⟨5, 1, 6⟩ ∧
    c1e2.location = ⟨3, 1, 4⟩ ∧
    (⟨3, 1, 4⟩ : SourceLocation) ≠ ⟨5, 1, 6⟩ ∧
    (chooseGo none [ChooseOutcome.failure c1e1, ChooseOutcome.failure c1e2]).map
        (fun r => r.alternatives.length) = some 1 :=
  ⟨rfl, rfl, by decide, rfl⟩

theorem crop_pos_of_lt (s : StreamState) (h0 : 0 ≤ s.index)
    (hlen : s.index < (s.preprocessed_locations.length : Int)) :
    ∃ l, s.preprocessed_locations.get? s.index.toNat = some l ∧
      (crop s).preprocessed_pos = l.pos ∧
      (crop s).preprocessed_lineno = l.lineno ∧
      (crop s).preprocessed_colno = l.colno := by
  have hlt : s.index.toNat < s.preprocessed_locations.length := by omega
  refine ⟨s.preprocessed_locations[s.index.toNat], ?_, ?_, ?_, ?_⟩
  · rw [List.get?_eq_getElem?]
    exact List.getElem?_eq_getElem hlt
  all_goals
    simp only [crop, if_pos h0, List.getD_eq_getElem?_getD,
      List.getElem?_take_of_lt (show s.index.toNat < (s.index + 1).toNat by omega),
      List.getElem?_eq_getElem hlt, Option.getD_some]

theorem crop_pos_of_neg (s : StreamState) (h0 : s.index < 0) :
    (crop s).preprocessed_pos = 0 ∧ (crop s).preprocessed_lineno = 1 ∧
    (crop s).preprocessed_colno = 1 := by
  simp only [crop, if_neg (by omega : ¬ 0 ≤ s.index)]
  exact ⟨trivial, trivial, trivial⟩

/-- Claim C5: exiting a syntax scope restores the previous rule tuple and
the previous compiled regex exactly, and both entry and exit crop the
buffer — tokens beyond the cursor are discarded and the preprocessed
position is rewound to the recorded end of the last consumed token (the
value `emit_token` appended, i.e. the token's preprocessed end location),
or to the start of input when no token was consumed. -/
theorem claim_c5 (s₀ sb : StreamState) (kwargs : List (String × Option Matcher))
    (body : StreamState → StreamState)
    (hbody : body (syntaxEnter s₀ kwargs) = sb)
    (hlen : sb.index < (sb.preprocessed_locations.length : Int)) :
    (syntaxScope s₀ kwargs body).syntax_rules = s₀.syntax_rules ∧
    (syntaxScope s₀ kwargs body).regex = s₀.regex ∧
    (syntaxScope s₀ kwargs body).tokens = sb.tokens.take (sb.index + 1).toNat ∧
    (0 ≤ sb.index → ∃ l, sb.preprocessed_locations.get? sb.index.toNat = some l ∧
        (syntaxScope s₀ kwargs body).preprocessed_pos = l.pos ∧
        (syntaxScope s₀ kwargs body).preprocessed_lineno = l.lineno ∧
        (syntaxScope s₀ kwargs body).preprocessed_colno = l.colno) ∧
    (sb.index < 0 → (syntaxScope s₀ kwargs body).preprocessed_pos = 0 ∧
        (syntaxScope s₀ kwargs body).preprocessed_lineno = 1 ∧
        (syntaxScope s₀ kwargs body).preprocessed_colno = 1) ∧
    (syntaxEnter s₀ kwargs).tokens = s₀.tokens.take (s₀.index + 1).toNat ∧
    (∀ (st : StreamState) (ty : String) (v : Text),
        (emitToken st ty v).1.preprocessed_locations =
          st.preprocessed_locations ++
            [SourceLocation.skip_over
              ⟨st.preprocessed_pos, st.preprocessed_lineno, st.preprocessed_colno⟩ v] ∧
        (emitToken st ty v).2.end_location =
          SourceLocation.map
            (SourceLocation.skip_over
              ⟨st.preprocessed_pos, st.preprocessed_lineno, st.preprocessed_colno⟩ v)
            st.preprocessed_mappings st.source_mappings) := by
  unfold syntaxScope syntaxExit
  rw [hbody]
  refine ⟨rfl, rfl, rfl, ?_, ?_, rfl, fun st ty v => ⟨rfl, rfl⟩⟩
  · intro h0
    exact crop_pos_of_lt { sb with syntax_rules := s₀.syntax_rules, regex := s₀.regex } h0 hlen
  · intro h0
    exact crop_pos_of_neg { sb with syntax_rules := s₀.syntax_rules, regex := s₀.regex } h0

/-! ### Indentation balance (C4) -/

theorem emitToken_index (s : StreamState) (ty : String) (v : Text) :
    (emitToken s ty v).1.index = (s.tokens.length : Int) := by
  show ((s.tokens ++ [(emitToken s ty v).2]).length : Int) - 1 = (s.tokens.length : Int)
  simp

theorem countT_append_eq (ty : String) (ts : List Token) (t : Token)
    (h : t.type = ty) : countT ty (ts ++ [t]) = countT ty ts + 1 := by
  simp [countT, List.countP_append, List.countP_cons, h]

theorem countT_append_ne (ty : String) (ts : List Token) (t : Token)
    (h : ¬ t.type = ty) : countT ty (ts ++ [t]) = countT ty ts := by
  simp [countT, List.countP_append, List.countP_cons, h]

theorem stack_single (l : List Nat) (hh : l.head? = some 0)
    (ht : ∀ x ∈ l.tail, 0 < x) (hl : l.getLast? = some 0) : l = [0] := by
  cases l with
  | nil => cases hh
  | cons a t =>
    have ha : a = 0 := by
      simp only [List.head?_cons, Option.some.injEq] at hh
      omega
    cases t with
    | nil => rw [ha]
    | cons b u =>
      exfalso
      have hmem : (b :: u).getLast (by simp) ∈ b :: u := List.getLast_mem _
      have hlast : (a :: b :: u).getLast? = some ((b :: u).getLast (by simp)) := by
        rw [List.getLast?_cons_cons]
        exact List.getLast?_eq_getLast _ _
      rw [hlast] at hl
      have := ht _ hmem
      simp only [Option.some.injEq] at hl
      omega

theorem IndentInv_popDedent (s : StreamState) (g : GenState) (hi : IndentInv s)
    (top : Nat) (hl : s.indentation.getLast? = some top) (htop : 0 < top)
    (hg : GoodGen g) (hgd : g ≠ GenState.done) :
    IndentInv (popDedent s g) := by
  obtain ⟨hh, ht, hc, hn, _, _⟩ := hi
  have hshape : ∃ b u, s.indentation = 0 :: b :: u := by
    cases hind : s.indentation with
    | nil => rw [hind] at hh; cases hh
    | cons a t =>
      rw [hind] at hh hl
      have ha : a = 0 := by
        simp only [List.head?_cons, Option.some.injEq] at hh
        omega
      cases t with
      | nil =>
        exfalso
        simp only [List.getLast?_singleton, Option.some.injEq] at hl
        omega
      | cons b u => exact ⟨b, u, by rw [ha]⟩
  obtain ⟨b, u, hbu⟩ := hshape
  have hdrop : (popDedent s g).indentation = s.indentation.dropLast := rfl
  have hty : (emitToken s "dedent" []).2.type = "dedent" := rfl
  refine ⟨?_, ?_, ?_, hn, hg, fun hdone => absurd hdone hgd⟩
  · show (s.indentation.dropLast).head? = some 0
    rw [hbu, List.dropLast_cons₂]
    rfl
  · intro x hx
    have hx' : x ∈ ((0 : Nat) :: (b :: u).dropLast).tail := by
      rw [hdrop, hbu, List.dropLast_cons₂] at hx
      exact hx
    simp only [List.tail_cons] at hx'
    refine ht x ?_
    rw [hbu]
    exact List.dropLast_subset _ hx'
  · show countT "indent" (s.tokens ++ [(emitToken s "dedent" []).2]) + 1 =
      countT "dedent" (s.tokens ++ [(emitToken s "dedent" []).2]) +
      (s.indentation.dropLast).length
    rw [countT_append_ne "indent" s.tokens _ (by rw [hty]; decide),
      countT_append_eq "dedent" s.tokens _ hty, hbu]
    rw [hbu] at hc
    simp only [List.length_dropLast, List.length_cons] at hc ⊢
    omega

theorem IndentInv_pushIndent (s : StreamState) (level : Nat) (m : Matched)
    (hi : IndentInv s) (top : Nat) (hl : s.indentation.getLast? = some top)
    (htop : top < level)
    (hm : m.lastgroup ≠ "indent" ∧ m.lastgroup ≠ "dedent") :
    IndentInv (pushIndent s level m) := by
  obtain ⟨hh, ht, hc, hn, _, _⟩ := hi
  have hne : s.indentation ≠ [] := by
    intro hnil
    rw [hnil] at hh
    cases hh
  have hty : (emitToken s "indent" []).2.type = "indent" := rfl
  refine ⟨?_, ?_, ?_, hn, hm, fun hdone => by cases hdone⟩
  · show (s.indentation ++ [level]).head? = some 0
    cases hind : s.indentation with
    | nil => exact absurd hind hne
    | cons a t =>
      rw [hind] at hh
      simpa using hh
  · intro x hx
    show 0 < x
    have hx' : x ∈ (s.indentation ++ [level]).tail := hx
    cases hind : s.indentation with
    | nil => exact absurd hind hne
    | cons a t =>
      rw [hind] at hx' ht
      simp only [List.cons_append, List.tail_cons] at hx'
      rcases List.mem_append.mp hx' with hmem | hmem
      · exact ht x hmem
      · simp only [List.mem_singleton] at hmem
        omega
  · show countT "indent" (s.tokens ++ [(emitToken s "indent" []).2]) + 1 =
      countT "dedent" (s.tokens ++ [(emitToken s "indent" []).2]) +
      (s.indentation ++ [level]).length
    rw [countT_append_eq "indent" s.tokens _ hty,
      countT_append_ne "dedent" s.tokens _ (by rw [hty]; decide)]
    simp only [List.length_append, List.length_cons, List.length_nil]
    omega

theorem IndentInv_emitMatchTok (s : StreamState) (m : Matched) (hi : IndentInv s)
    (hm : m.lastgroup ≠ "indent" ∧ m.lastgroup ≠ "dedent") :
    IndentInv (emitMatchTok s m) := by
  obtain ⟨hh, ht, hc, hn, _, _⟩ := hi
  have hty : (emitToken s m.lastgroup m.text).2.type = m.lastgroup := rfl
  refine ⟨hh, ht, ?_, hn, trivial, fun hdone => by cases hdone⟩
  show countT "indent" (s.tokens ++ [(emitToken s m.lastgroup m.text).2]) + 1 =
    countT "dedent" (s.tokens ++ [(emitToken s m.lastgroup m.text).2]) +
    s.indentation.length
  rw [countT_append_ne "indent" s.tokens _ (by rw [hty]; exact hm.1),
    countT_append_ne "dedent" s.tokens _ (by rw [hty]; exact hm.2)]
  exact hc

theorem IndentInv_emitEof (s : StreamState) (hi : IndentInv s)
    (hone : s.indentation = [0]) : IndentInv (emitEof s) := by
  obtain ⟨hh, ht, hc, hn, _, _⟩ := hi
  have hty : (emitToken s "eof" []).2.type = "eof" := rfl
  refine ⟨hh, ht, ?_, hn, trivial, fun _ => hone⟩
  show countT "indent" (s.tokens ++ [(emitToken s "eof" []).2]) + 1 =
    countT "dedent" (s.tokens ++ [(emitToken s "eof" []).2]) +
    s.indentation.length
  rw [countT_append_ne "indent" s.tokens _ (by rw [hty]; decide),
    countT_append_ne "dedent" s.tokens _ (by rw [hty]; decide)]
  exact hc

theorem flushStep_inv (s s' : StreamState) (hi : IndentInv s)
    (h : flushStep s = .emitted s') : IndentInv s' := by
  unfold flushStep at h
  split at h
  case h_1 top hl =>
    split at h
    · cases h
      exact IndentInv_popDedent s .flush hi top hl (by omega) trivial (by intro hx; cases hx)
    · cases h
      refine IndentInv_emitEof s hi ?_
      exact stack_single s.indentation hi.1 hi.2.1 (by rw [hl]; congr 1; omega)
  case h_2 hl =>
    exfalso
    have hnil : s.indentation = [] := List.getLast?_eq_none_iff.mp hl
    have hh := hi.1
    rw [hnil] at hh
    cases hh

theorem wsDedentStep_inv (s s' : StreamState) (level : Nat) (m : Matched)
    (hi : IndentInv s)
    (hm : m.lastgroup ≠ "indent" ∧ m.lastgroup ≠ "dedent")
    (h : wsDedentStep s level m = .emitted s') : IndentInv s' := by
  unfold wsDedentStep at h
  split at h
  case h_1 top hl =>
    split at h
    · cases h
      exact IndentInv_popDedent s (.wsDedent level m) hi top hl (by omega) hm
        (by intro hx; cases hx)
    · split at h
      · cases h
        exact IndentInv_pushIndent s level m hi top hl (by omega) hm
      · cases h
        exact IndentInv_emitMatchTok s m hi hm
  case h_2 => cases h

theorem nlDedentStep_inv (s s' : StreamState) (m : Matched)
    (hi : IndentInv s)
    (hm : m.lastgroup ≠ "indent" ∧ m.lastgroup ≠ "dedent")
    (h : nlDedentStep s m = .emitted s') : IndentInv s' := by
  unfold nlDedentStep at h
  split at h
  case h_1 top hl =>
    split at h
    · cases h
      exact IndentInv_popDedent s (.nlDedent m) hi top hl (by omega) hm
        (by intro hx; cases hx)
    · cases h
      exact IndentInv_emitMatchTok s m hi hm
  case h_2 =>
    cases h
    exact IndentInv_emitMatchTok s m hi hm

theorem regexMatch_lastgroup_mem (regex : List (String × Matcher)) (text : Text)
    (pos : Nat) (m : Matched) (h : regexMatch regex text pos = some m) :
    m.lastgroup ∈ regex.map Prod.fst := by
  induction regex with
  | nil => cases h
  | cons r rs ih =>
    obtain ⟨name, matcher⟩ := r
    unfold regexMatch at h
    split at h
    · simp only [Option.some.injEq] at h
      subst h
      simp
    · simpa using Or.inr (ih h)

theorem runStep_inv (s s' : StreamState) (hi : IndentInv s)
    (h : runStep s = .emitted s') : IndentInv s' := by
  unfold runStep at h
  split at h
  · split at h
    case h_1 => cases h
    case h_2 m hm =>
      have hmem := regexMatch_lastgroup_mem s.regex s.preprocessed_source
        s.preprocessed_pos.toNat m hm
      obtain ⟨p, hp, hpe⟩ := List.mem_map.mp hmem
      have hgood : m.lastgroup ≠ "indent" ∧ m.lastgroup ≠ "dedent" := by
        rw [← hpe]
        exact hi.2.2.2.1 p hp
      split at h
      · cases h
        exact IndentInv_emitMatchTok s m hi hgood
      · split at h
        case h_1 => cases h
        case h_2 cur hcur =>
          split at h
          · exact wsDedentStep_inv s s' (expandtabsLen cur.value 0) m hi hgood h
          · split at h
            · exact nlDedentStep_inv s s' m hi hgood h
            · cases h
              exact IndentInv_emitMatchTok s m hi hgood
  · exact flushStep_inv s s' hi h

theorem genNext_inv (s s' : StreamState) (hi : IndentInv s)
    (h : genNext s = .emitted s') : IndentInv s' := by
  cases hgen : s.gen <;> simp only [genNext, hgen] at h
  case done => cases h
  case run => exact runStep_inv s s' hi h
  case wsDedent level m =>
    have hm : m.lastgroup ≠ "indent" ∧ m.lastgroup ≠ "dedent" := by
      have := hi.2.2.2.2.1
      rw [hgen] at this
      exact this
    exact wsDedentStep_inv s s' level m hi hm h
  case nlDedent m =>
    have hm : m.lastgroup ≠ "indent" ∧ m.lastgroup ≠ "dedent" := by
      have := hi.2.2.2.2.1
      rw [hgen] at this
      exact this
    exact nlDedentStep_inv s s' m hi hm h
  case emitMatch m =>
    cases h
    have hm : m.lastgroup ≠ "indent" ∧ m.lastgroup ≠ "dedent" := by
      have := hi.2.2.2.2.1
      rw [hgen] at this
      exact this
    exact IndentInv_emitMatchTok s m hi hm
  case flush => exact flushStep_inv s s' hi h

theorem wsDedentStep_ne_stop (s : StreamState) (level : Nat) (m : Matched) :
    wsDedentStep s level m ≠ .stopIter := by
  unfold wsDedentStep
  split
  · split
    · intro hx; cases hx
    · split <;> intro hx <;> cases hx
  · intro hx; cases hx

theorem nlDedentStep_ne_stop (s : StreamState) (m : Matched) :
    nlDedentStep s m ≠ .stopIter := by
  unfold nlDedentStep
  split
  · split <;> intro hx <;> cases hx
  · intro hx; cases hx

theorem flushStep_ne_stop (s : StreamState) : flushStep s ≠ .stopIter := by
  unfold flushStep
  split
  · split <;> intro hx <;> cases hx
  · intro hx; cases hx

theorem runStep_ne_stop (s : StreamState) : runStep s ≠ .stopIter := by
  unfold runStep
  split
  · split
    · intro hx; cases hx
    · split
      · intro hx; cases hx
      · split
        · intro hx; cases hx
        · split
          · exact wsDedentStep_ne_stop _ _ _
          · split
            · exact nlDedentStep_ne_stop _ _
            · intro hx; cases hx
  · exact flushStep_ne_stop _

theorem genNext_stopIter (s : StreamState) (h : genNext s = .stopIter) :
    s.gen = .done := by
  cases hgen : s.gen <;> simp only [genNext, hgen] at h
  case run => exact absurd h (runStep_ne_stop s)
  case wsDedent level m => exact absurd h (wsDedentStep_ne_stop s level m)
  case nlDedent m => exact absurd h (nlDedentStep_ne_stop s m)
  case emitMatch m => cases h
  case flush => exact absurd h (flushStep_ne_stop s)
  case done => rfl

theorem runGen_balance (fuel : Nat) (s s' : StreamState) (hi : IndentInv s)
    (h : runGen fuel s = some s') :
    countT "indent" s'.tokens = countT "dedent" s'.tokens := by
  induction fuel generalizing s with
  | zero => cases h
  | succ f ih =>
    unfold runGen at h
    split at h
    case h_1 s₂ hg => exact ih s₂ (genNext_inv s s₂ hi hg) h
    case h_2 hg =>
      simp only [Option.some.injEq] at h
      subst h
      have hdone := genNext_stopIter s hg
      have hone := hi.2.2.2.2.2 hdone
      have hc := hi.2.2.1
      rw [hone] at hc
      simp only [List.length_singleton] at hc
      omega
    case h_3 => cases h

/-- Claim C4: over a full traversal to end of input with indentation enabled
throughout (fresh buffer, stack `[0]`), the generator emits as many `indent`
tokens as `dedent` tokens — unmatched levels are flushed as dedents at end
of input.  (The rule names must not themselves be `indent`/`dedent`.) -/
theorem claim_c4 (fuel : Nat) (s₀ s' : StreamState)
    (htok : s₀.tokens = []) (hind : s₀.indentation = [0]) (hgen : s₀.gen = .run)
    (hnames : GoodNames s₀.regex)
    (h : runGen fuel s₀ = some s') :
    countT "indent" s'.tokens = countT "dedent" s'.tokens := by
  refine runGen_balance fuel s₀ s' ⟨?_, ?_, ?_, hnames, ?_, ?_⟩ h
  · rw [hind]; rfl
  · intro x hx; rw [hind] at hx; cases hx
  · rw [htok, hind]; rfl
  · rw [hgen]; trivial
  · rw [hgen]; intro hx; cases hx

/-- Witness for C4: the indentation scenario `"a\n\tb\nc"` with one `word`
rule — the full traversal emits `word, newline, whitespace, indent, word,
newline, dedent, word, eof`, with one `indent` and one `dedent`. -/
theorem claim_c4_witness :
    ∃ s', runGen 30 c4stream = some s' ∧
      countT "indent" s'.tokens = countT "dedent" s'.tokens := by
  have hs : (runGen 30 c4stream).isSome = true := rfl
  have hnames : GoodNames c4stream.regex := by
    have e : c4stream.regex =
        [("word", wordMatcher), ("newline", newlineMatcher),
         ("whitespace", whitespaceMatcher), ("invalid", invalidMatcher)] := rfl
    rw [e]
    intro p hp
    simp only [List.mem_cons, List.not_mem_nil, or_false] at hp
    rcases hp with h | h | h | h <;> subst h <;> exact ⟨by decide, by decide⟩
  refine ⟨(runGen 30 c4stream).get hs, (Option.some_get hs).symm, ?_⟩
  exact claim_c4 30 c4stream _ rfl rfl rfl hnames (Option.some_get hs).symm

/-! ### Replay after `peek` (C2) -/

theorem genNext_emitted (s s' : StreamState) (h : genNext s = .emitted s') :
    ∃ t, s'.tokens = s.tokens ++ [t] ∧ s'.index = (s.tokens.length : Int) ∧
      s'.ignored_tokens = s.ignored_tokens := by
  have hpop : ∀ g, ∃ t, (popDedent s g).tokens = s.tokens ++ [t] ∧
      (popDedent s g).index = (s.tokens.length : Int) ∧
      (popDedent s g).ignored_tokens = s.ignored_tokens :=
    fun g => ⟨_, rfl, emitToken_index s "dedent" [], rfl⟩
  have hpush : ∀ level m, ∃ t, (pushIndent s level m).tokens = s.tokens ++ [t] ∧
      (pushIndent s level m).index = (s.tokens.length : Int) ∧
      (pushIndent s level m).ignored_tokens = s.ignored_tokens :=
    fun level m => ⟨_, rfl, emitToken_index s "indent" [], rfl⟩
  have hemit : ∀ m, ∃ t, (emitMatchTok s m).tokens = s.tokens ++ [t] ∧
      (emitMatchTok s m).index = (s.tokens.length : Int) ∧
      (emitMatchTok s m).ignored_tokens = s.ignored_tokens :=
    fun m => ⟨_, rfl, emitToken_index s m.lastgroup m.text, rfl⟩
  have heof : ∃ t, (emitEof s).tokens = s.tokens ++ [t] ∧
      (emitEof s).index = (s.tokens.length : Int) ∧
      (emitEof s).ignored_tokens = s.ignored_tokens :=
    ⟨_, rfl, emitToken_index s "eof" [], rfl⟩
  have hws : ∀ level m, wsDedentStep s level m = .emitted s' →
      ∃ t, s'.tokens = s.tokens ++ [t] ∧ s'.index = (s.tokens.length : Int) ∧
        s'.ignored_tokens = s.ignored_tokens := by
    intro level m hstep
    unfold wsDedentStep at hstep
    split at hstep
    · split at hstep
      · cases hstep; exact hpop _
      · split at hstep
        · cases hstep; exact hpush _ _
        · cases hstep; exact hemit _
    · cases hstep
  have hnl : ∀ m, nlDedentStep s m = .emitted s' →
      ∃ t, s'.tokens = s.tokens ++ [t] ∧ s'.index = (s.tokens.length : Int) ∧
        s'.ignored_tokens = s.ignored_tokens := by
    intro m hstep
    unfold nlDedentStep at hstep
    split at hstep
    · split at hstep
      · cases hstep; exact hpop _
      · cases hstep; exact hemit _
    · cases hstep; exact hemit _
  have hfl : flushStep s = .emitted s' →
      ∃ t, s'.tokens = s.tokens ++ [t] ∧ s'.index = (s.tokens.length : Int) ∧
        s'.ignored_tokens = s.ignored_tokens := by
    intro hstep
    unfold flushStep at hstep
    split at hstep
    · split at hstep
      · cases hstep; exact hpop _
      · cases hstep; exact heof
    · cases hstep; exact heof
  cases hgen : s.gen <;> simp only [genNext, hgen] at h
  case done => cases h
  case wsDedent level m => exact hws level m h
  case nlDedent m => exact hnl m h
  case emitMatch m => cases h; exact hemit m
  case flush => exact hfl h
  case run =>
    unfold runStep at h
    split at h
    · split at h
      case h_1 => cases h
      case h_2 m hm =>
        split at h
        · cases h; exact hemit m
        · split at h
          case h_1 => cases h
          case h_2 cur hcur =>
            split at h
            · exact hws _ m h
            · split at h
              · exact hnl m h
              · cases h; exact hemit m
    · exact hfl h

theorem currentToken_of_lt (s : StreamState) (h0 : 0 ≤ s.index)
    (hlt : s.index < (s.tokens.length : Int)) :
    ∃ t, currentToken s = some t ∧ s.tokens.get? s.index.toNat = some t := by
  have hlt' : s.index.toNat < s.tokens.length := by omega
  refine ⟨s.tokens[s.index.toNat], ?_, ?_⟩
  · unfold currentToken
    rw [if_neg (by omega), List.get?_eq_getElem?]
    exact List.getElem?_eq_getElem hlt'
  · rw [List.get?_eq_getElem?]
    exact List.getElem?_eq_getElem hlt'

theorem advance_replay (s : StreamState) (hc : s.index + 1 < (s.tokens.length : Int)) :
    advance s = .emitted { s with index := s.index + 1 } := by
  unfold advance
  rw [if_pos hc]

theorem advance_gen (s : StreamState) (hc : ¬ s.index + 1 < (s.tokens.length : Int)) :
    advance s = genNext s := by
  unfold advance
  rw [if_neg hc]

theorem nextTok_succ_emitted (f : Nat) (s s₂ : StreamState)
    (hadv : advance s = .emitted s₂) :
    nextTok (f + 1) s =
      match currentToken s₂ with
      | some t => if s₂.ignored_tokens.contains t.type then nextTok f s₂ else .tok s₂
      | none => .crash := by
  show (match advance s with
    | GenRes.emitted s₃ =>
      match currentToken s₃ with
      | some t => if s₃.ignored_tokens.contains t.type then nextTok f s₃ else .tok s₃
      | none => NextResult.crash
    | GenRes.stopIter => NextResult.stop s
    | GenRes.crash => NextResult.crash) = _
  rw [hadv]

theorem nextTok_succ_cases (f : Nat) (s s₂ : StreamState) (t : Token)
    (hadv : advance s = .emitted s₂) (hcur : currentToken s₂ = some t) :
    nextTok (f + 1) s =
      if s₂.ignored_tokens.contains t.type then nextTok f s₂ else .tok s₂ := by
  rw [nextTok_succ_emitted f s s₂ hadv, hcur]

theorem nextTok_succ_stop (f : Nat) (s : StreamState)
    (hadv : advance s = .stopIter) : nextTok (f + 1) s = .stop s := by
  show (match advance s with
    | GenRes.emitted s₃ =>
      match currentToken s₃ with
      | some t => if s₃.ignored_tokens.contains t.type then nextTok f s₃ else .tok s₃
      | none => NextResult.crash
    | GenRes.stopIter => NextResult.stop s
    | GenRes.crash => NextResult.crash) = _
  rw [hadv]

theorem nextTok_succ_crash (f : Nat) (s : StreamState)
    (hadv : advance s = .crash) : nextTok (f + 1) s = .crash := by
  show (match advance s with
    | GenRes.emitted s₃ =>
      match currentToken s₃ with
      | some t => if s₃.ignored_tokens.contains t.type then nextTok f s₃ else .tok s₃
      | none => NextResult.crash
    | GenRes.stopIter => NextResult.stop s
    | GenRes.crash => NextResult.crash) = _
  rw [hadv]

theorem nextTok_replay (fuel : Nat) :
    ∀ (s s' : StreamState), ValidCursor s → nextTok fuel s = .tok s' →
    (∃ ext, s'.tokens = s.tokens ++ ext) ∧
    s'.ignored_tokens = s.ignored_tokens ∧
    ValidCursor s' ∧
    nextTok fuel { s' with index := s.index } = .tok s' := by
  induction fuel with
  | zero =>
    intro s s' _ h
    cases h
  | succ f ih =>
    intro s s' hv h
    obtain ⟨hv1, hv2⟩ := hv
    by_cases hc : s.index + 1 < (s.tokens.length : Int)
    · -- replay from the buffer
      have hlt : (s.index + 1).toNat < s.tokens.length := by omega
      have ht : currentToken { s with index := s.index + 1 } =
          some s.tokens[(s.index + 1).toNat] := by
        show (if (s.index + 1 : Int) < 0 then none
          else s.tokens.get? (s.index + 1).toNat) = _
        rw [if_neg (by omega), List.get?_eq_getElem?]
        exact List.getElem?_eq_getElem hlt
      set t := s.tokens[(s.index + 1).toNat] with htdef
      rw [nextTok_succ_cases f s { s with index := s.index + 1 } t
        (advance_replay s hc) ht] at h
      by_cases hig : ({ s with index := s.index + 1 } :
          StreamState).ignored_tokens.contains t.type
      · rw [if_pos hig] at h
        obtain ⟨⟨ext, hext⟩, hi, hv', hrep⟩ :=
          ih { s with index := s.index + 1 } s'
            ⟨by show (-1 : Int) ≤ s.index + 1; omega,
             by show s.index + 1 < (s.tokens.length : Int); exact hc⟩ h
        have hext' : s'.tokens = s.tokens ++ ext := hext
        refine ⟨⟨ext, hext'⟩, hi, hv', ?_⟩
        have hlen : s.index + 1 < (s'.tokens.length : Int) := by
          have : s'.tokens.length = s.tokens.length + ext.length := by
            rw [hext']
            exact List.length_append _ _
          omega
        have hcur2 : currentToken { s' with index := s.index + 1 } = some t := by
          show (if (s.index + 1 : Int) < 0 then none
            else s'.tokens.get? (s.index + 1).toNat) = some t
          rw [if_neg (by omega), List.get?_eq_getElem?, hext',
            List.getElem?_append_left hlt]
          exact List.getElem?_eq_getElem hlt
        have hadv2 : advance { s' with index := s.index } =
            .emitted { s' with index := s.index + 1 } := by
          exact advance_replay { s' with index := s.index }
            (by show s.index + 1 < (s'.tokens.length : Int); exact hlen)
        rw [nextTok_succ_cases f { s' with index := s.index }
          { s' with index := s.index + 1 } t hadv2 hcur2]
        rw [if_pos (show (({ s' with index := s.index + 1 } :
            StreamState).ignored_tokens.contains t.type) = true by
          show s'.ignored_tokens.contains t.type = true
          rw [hi]
          exact hig)]
        have heq : ({ s' with index := s.index + 1 } : StreamState) =
            { s' with index := ({ s with index := s.index + 1 } :
              StreamState).index } := rfl
        rw [heq]
        exact hrep
      · rw [if_neg hig] at h
        cases h
        refine ⟨⟨[], by simp⟩, rfl,
          ⟨by show (-1 : Int) ≤ s.index + 1; omega,
           by show s.index + 1 < (s.tokens.length : Int); exact hc⟩, ?_⟩
        show nextTok (f + 1) s = NextResult.tok { s with index := s.index + 1 }
        rw [nextTok_succ_cases f s { s with index := s.index + 1 } t
          (advance_replay s hc) ht]
        rw [if_neg hig]
    · -- a token is pulled from the generator
      have hadv1 : advance s = genNext s := advance_gen s hc
      cases hg : genNext s with
      | stopIter =>
        rw [nextTok_succ_stop f s (by rw [hadv1]; exact hg)] at h
        cases h
      | crash =>
        rw [nextTok_succ_crash f s (by rw [hadv1]; exact hg)] at h
        cases h
      | emitted s₂ =>
        obtain ⟨t, htok, hidx, hign⟩ := genNext_emitted s s₂ hg
        have hidx_eq : s.index + 1 = (s.tokens.length : Int) := by omega
        have hlen₂ : s₂.tokens.length = s.tokens.length + 1 := by
          rw [htok]
          simp
        have hcur : currentToken s₂ = some t := by
          unfold currentToken
          rw [if_neg (by omega), htok, hidx]
          rw [show ((s.tokens.length : Int)).toNat = s.tokens.length from by omega]
          rw [List.get?_eq_getElem?]
          exact List.getElem?_concat_length s.tokens t
        rw [nextTok_succ_cases f s s₂ t (by rw [hadv1]; exact hg) hcur] at h
        have hv₂ : ValidCursor s₂ := ⟨by omega, by rw [hidx]; omega⟩
        by_cases hig : s₂.ignored_tokens.contains t.type
        · rw [if_pos hig] at h
          obtain ⟨⟨ext, hext⟩, hi, hv', hrep⟩ := ih s₂ s' hv₂ h
          have hext' : s'.tokens = s.tokens ++ (t :: ext) := by
            rw [hext, htok]
            simp
          refine ⟨⟨t :: ext, hext'⟩, by rw [hi, hign], hv', ?_⟩
          have hlen : s.index + 1 < (s'.tokens.length : Int) := by
            have : s'.tokens.length = s.tokens.length + (t :: ext).length := by
              rw [hext']
              exact List.length_append _ _
            simp only [List.length_cons] at this
            omega
          have hcur' : currentToken { s' with index := s.index + 1 } = some t := by
            show (if (s.index + 1 : Int) < 0 then none
              else s'.tokens.get? (s.index + 1).toNat) = some t
            rw [if_neg (by omega), List.get?_eq_getElem?, hext']
            rw [show (s.index + 1).toNat = s.tokens.length from by omega]
            rw [List.getElem?_append_right (by omega)]
            simp
          have hadv2 : advance { s' with index := s.index } =
              .emitted { s' with index := s.index + 1 } := by
            exact advance_replay { s' with index := s.index }
              (by show s.index + 1 < (s'.tokens.length : Int); exact hlen)
          rw [nextTok_succ_cases f { s' with index := s.index }
            { s' with index := s.index + 1 } t hadv2 hcur']
          rw [if_pos (show (({ s' with index := s.index + 1 } :
              StreamState).ignored_tokens.contains t.type) = true by
            show s'.ignored_tokens.contains t.type = true
            rw [hi]
            exact hig)]
          have heq : ({ s' with index := s.index + 1 } : StreamState) =
              { s' with index := s₂.index } := by
            rw [hidx, hidx_eq]
          rw [heq]
          exact hrep
        · rw [if_neg hig] at h
          cases h
          refine ⟨⟨[t], htok⟩, hign, hv₂, ?_⟩
          have hadv2 : advance { s' with index := s.index } = .emitted s' := by
            have h1 : advance { s' with index := s.index } =
                .emitted { s' with index := s.index + 1 } :=
              advance_replay { s' with index := s.index }
                (by show s.index + 1 < (s'.tokens.length : Int); omega)
            rw [h1]
            have h2 : ({ s' with index := s.index + 1 } : StreamState) = s' := by
              rw [hidx_eq, ← hidx]
            rw [h2]
          rw [nextTok_succ_cases f { s' with index := s.index } s' t hadv2 hcur]
          rw [if_neg hig]

theorem peek_one_tok (f : Nat) (s s₂ : StreamState) (t : Token)
    (hnt : nextTok (f + 1) s = .tok s₂) (hct : currentToken s₂ = some t) :
    peek (f + 1) s 1 = some (some t, { s₂ with index := s.index }) := by
  show (match peekBackOuter (f + 1) 1 none s with
    | none => none
    | some (PeekPhase1.returnNone s') => some (none, { s' with index := s.index })
    | some (PeekPhase1.proceed s' tok) =>
      match peekGo (f + 1) (1 : Int).toNat tok s' with
      | none => none
      | some (tok', s'') => some (tok', { s'' with index := s.index })) = _
  rw [show peekBackOuter (f + 1) 1 none s = some (.proceed s none) from rfl]
  show (match peekGo (f + 1) 1 none s with
    | none => none
    | some (tok', s'') => some (tok', { s'' with index := s.index })) = _
  rw [show peekGo (f + 1) 1 none s = peekGo (f + 1) 0 (some t) s₂ from by
    show (match nextTok (f + 1) s with
      | NextResult.tok s' =>
        match currentToken s' with
        | some t' => peekGo (f + 1) 0 (some t') s'
        | none => none
      | NextResult.stop s' => some (none, s')
      | NextResult.outOfFuel => none
      | NextResult.crash => none) = _
    rw [hnt]
    show (match currentToken s₂ with
      | some t' => peekGo (f + 1) 0 (some t') s₂
      | none => none) = _
    rw [hct]]
  rfl

theorem peek_one_stop (f : Nat) (s s₂ : StreamState)
    (hnt : nextTok (f + 1) s = .stop s₂) :
    peek (f + 1) s 1 = some (none, { s₂ with index := s.index }) := by
  show (match peekBackOuter (f + 1) 1 none s with
    | none => none
    | some (PeekPhase1.returnNone s') => some (none, { s' with index := s.index })
    | some (PeekPhase1.proceed s' tok) =>
      match peekGo (f + 1) (1 : Int).toNat tok s' with
      | none => none
      | some (tok', s'') => some (tok', { s'' with index := s.index })) = _
  rw [show peekBackOuter (f + 1) 1 none s = some (.proceed s none) from rfl]
  show (match peekGo (f + 1) 1 none s with
    | none => none
    | some (tok', s'') => some (tok', { s'' with index := s.index })) = _
  rw [show peekGo (f + 1) 1 none s = some (none, s₂) from by
    show (match nextTok (f + 1) s with
      | NextResult.tok s' =>
        match currentToken s' with
        | some t' => peekGo (f + 1) 0 (some t') s'
        | none => none
      | NextResult.stop s' => some (none, s')
      | NextResult.outOfFuel => none
      | NextResult.crash => none) = _
    rw [hnt]]

theorem peek_one_curnone (f : Nat) (s s₂ : StreamState)
    (hnt : nextTok (f + 1) s = .tok s₂) (hct : currentToken s₂ = none) :
    peek (f + 1) s 1 = none := by
  show (match peekBackOuter (f + 1) 1 none s with
    | none => none
    | some (PeekPhase1.returnNone s') => some (none, { s' with index := s.index })
    | some (PeekPhase1.proceed s' tok) =>
      match peekGo (f + 1) (1 : Int).toNat tok s' with
      | none => none
      | some (tok', s'') => some (tok', { s'' with index := s.index })) = _
  rw [show peekBackOuter (f + 1) 1 none s = some (.proceed s none) from rfl]
  show (match peekGo (f + 1) 1 none s with
    | none => none
    | some (tok', s'') => some (tok', { s'' with index := s.index })) = _
  rw [show peekGo (f + 1) 1 none s = none from by
    show (match nextTok (f + 1) s with
      | NextResult.tok s' =>
        match currentToken s' with
        | some t' => peekGo (f + 1) 0 (some t') s'
        | none => none
      | NextResult.stop s' => some (none, s')
      | NextResult.outOfFuel => none
      | NextResult.crash => none) = _
    rw [hnt]
    show (match currentToken s₂ with
      | some t' => peekGo (f + 1) 0 (some t') s₂
      | none => none) = _
    rw [hct]]

theorem peek_one_outOfFuel (f : Nat) (s : StreamState)
    (hnt : nextTok (f + 1) s = .outOfFuel) : peek (f + 1) s 1 = none := by
  show (match peekBackOuter (f + 1) 1 none s with
    | none => none
    | some (PeekPhase1.returnNone s') => some (none, { s' with index := s.index })
    | some (PeekPhase1.proceed s' tok) =>
      match peekGo (f + 1) (1 : Int).toNat tok s' with
      | none => none
      | some (tok', s'') => some (tok', { s'' with index := s.index })) = _
  rw [show peekBackOuter (f + 1) 1 none s = some (.proceed s none) from rfl]
  show (match peekGo (f + 1) 1 none s with
    | none => none
    | some (tok', s'') => some (tok', { s'' with index := s.index })) = _
  rw [show peekGo (f + 1) 1 none s = none from by
    show (match nextTok (f + 1) s with
      | NextResult.tok s' =>
        match currentToken s' with
        | some t' => peekGo (f + 1) 0 (some t') s'
        | none => none
      | NextResult.stop s' => some (none, s')
      | NextResult.outOfFuel => none
      | NextResult.crash => none) = _
    rw [hnt]]

theorem peek_one_crash (f : Nat) (s : StreamState)
    (hnt : nextTok (f + 1) s = .crash) : peek (f + 1) s 1 = none := by
  show (match peekBackOuter (f + 1) 1 none s with
    | none => none
    | some (PeekPhase1.returnNone s') => some (none, { s' with index := s.index })
    | some (PeekPhase1.proceed s' tok) =>
      match peekGo (f + 1) (1 : Int).toNat tok s' with
      | none => none
      | some (tok', s'') => some (tok', { s'' with index := s.index })) = _
  rw [show peekBackOuter (f + 1) 1 none s = some (.proceed s none) from rfl]
  show (match peekGo (f + 1) 1 none s with
    | none => none
    | some (tok', s'') => some (tok', { s'' with index := s.index })) = _
  rw [show peekGo (f + 1) 1 none s = none from by
    show (match nextTok (f + 1) s with
      | NextResult.tok s' =>
        match currentToken s' with
        | some t' => peekGo (f + 1) 0 (some t') s'
        | none => none
      | NextResult.stop s' => some (none, s')
      | NextResult.outOfFuel => none
      | NextResult.crash => none) = _
    rw [hnt]]

theorem expect0_tok (f : Nat) (s s₂ : StreamState) (t : Token)
    (hnt : nextTok f s = .tok s₂) (hct : currentToken s₂ = some t)
    (hty : t.matchPatterns [TokenPattern.type "invalid"] = false) :
    expect0 f s = .ok t s₂ := by
  show (match nextTok f s with
    | NextResult.tok s' =>
      match currentToken s' with
      | some t' =>
        if t'.matchPatterns [TokenPattern.type "invalid"] then
          ExpectRes.err (.unexpectedToken t' []) s'
        else ExpectRes.ok t' s'
      | none => ExpectRes.fail
    | NextResult.stop s' =>
      match peek f s' 1 with
      | some (some t', s'') => ExpectRes.err (.unexpectedToken t' []) s''
      | some (none, s'') => ExpectRes.err (.unexpectedEOF []) s''
      | none => ExpectRes.fail
    | NextResult.outOfFuel => ExpectRes.fail
    | NextResult.crash => ExpectRes.fail) = ExpectRes.ok t s₂
  rw [hnt]
  show (match currentToken s₂ with
    | some t' =>
      if t'.matchPatterns [TokenPattern.type "invalid"] then
        ExpectRes.err (.unexpectedToken t' []) s₂
      else ExpectRes.ok t' s₂
    | none => ExpectRes.fail) = ExpectRes.ok t s₂
  rw [hct]
  show (if t.matchPatterns [TokenPattern.type "invalid"] then
      ExpectRes.err (.unexpectedToken t []) s₂
    else ExpectRes.ok t s₂) = ExpectRes.ok t s₂
  rw [hty]
  rfl

/-- Claim C2 (amended): whenever `peek(1)` returns a token whose type is not
`invalid`, an immediately following `expect()` with no pattern returns the
identical token.  (When the next token has type `invalid`, `expect()` raises
instead of returning it — see the counterexample.) -/
theorem claim_c2 (f : Nat) (s₀ : StreamState) (t : Token) (s₁ : StreamState)
    (hv1 : -1 ≤ s₀.index) (hv2 : s₀.index < (s₀.tokens.length : Int))
    (hp : peek f s₀ 1 = some (some t, s₁)) (ht : ¬ t.type = "invalid") :
    ∃ s', expect0 f s₁ = .ok t s' := by
  cases f with
  | zero => exact Option.noConfusion hp
  | succ g =>
    cases hnt : nextTok (g + 1) s₀ with
    | tok s₂ =>
      cases hct : currentToken s₂ with
      | some t₂ =>
        have hpeq := peek_one_tok g s₀ s₂ t₂ hnt hct
        rw [hp] at hpeq
        simp only [Option.some.injEq, Prod.mk.injEq] at hpeq
        obtain ⟨hteq, hseq⟩ := hpeq
        subst hteq
        subst hseq
        obtain ⟨_, _, _, hrep⟩ := nextTok_replay (g + 1) s₀ s₂ ⟨hv1, hv2⟩ hnt
        have hmp : t.matchPatterns [TokenPattern.type "invalid"] = false := by
          simp [Token.matchPatterns, ht]
        exact ⟨s₂, expect0_tok (g + 1) { s₂ with index := s₀.index } s₂ t hrep hct hmp⟩
      | none =>
        have hpeq := peek_one_curnone g s₀ s₂ hnt hct
        rw [hp] at hpeq
        cases hpeq
    | stop s₂ =>
      have hpeq := peek_one_stop g s₀ s₂ hnt
      rw [hp] at hpeq
      simp only [Option.some.injEq, Prod.mk.injEq] at hpeq
      exact absurd hpeq.1 (by simp)
    | outOfFuel =>
      have hpeq := peek_one_outOfFuel g s₀ hnt
      rw [hp] at hpeq
      cases hpeq
    | crash =>
      have hpeq := peek_one_crash g s₀ hnt
      rw [hp] at hpeq
      cases hpeq

/-- Witness for C2: on `"hello world"` with a `word` rule, `peek(1)` returns
the token for `hello`, and `expect()` then returns the identical token. -/
theorem claim_c2_witness :
    ∃ s', expect0 10 helloMid = .ok helloToken s' := by
  have hpk : peek 10 helloStream 1 = some (some helloToken, helloMid) := rfl
  exact claim_c2 10 helloStream helloToken helloMid (by decide) (by decide) hpk
    (by decide)

/-- Counterexample for C2 as stated: over `"foo"` with only a `number` rule,
`peek(1)` returns the `invalid` token but the immediately following
`expect()` raises `UnexpectedToken` instead of returning an identical
token. -/
theorem claim_c2_counterexample :
    peek 10 c2stream 1 = some (some c2token, c2mid) ∧
    c2token.type = "invalid" ∧
    (expect0 10 c2mid).returnedToken = none :=
  ⟨rfl, rfl, rfl⟩

/-! ### The baked alternation always matches (C6) -/

theorem implicit_total (text : Text) (pos : Nat) (h : pos < text.length) :
    ∃ m, regexMatch implicitRules text pos = some m := by
  cases hn : newlineMatcher text pos with
  | some n =>
    refine ⟨Matched.mk "newline" ((text.drop pos).take n), ?_⟩
    show (match newlineMatcher text pos with
      | some k => some (Matched.mk "newline" ((text.drop pos).take k))
      | none => regexMatch [("whitespace", whitespaceMatcher),
          ("invalid", invalidMatcher)] text pos) = _
    rw [hn]
  | none =>
    cases hw : whitespaceMatcher text pos with
    | some n =>
      refine ⟨Matched.mk "whitespace" ((text.drop pos).take n), ?_⟩
      show (match newlineMatcher text pos with
        | some k => some (Matched.mk "newline" ((text.drop pos).take k))
        | none => regexMatch [("whitespace", whitespaceMatcher),
            ("invalid", invalidMatcher)] text pos) = _
      rw [hn]
      show (match whitespaceMatcher text pos with
        | some k => some (Matched.mk "whitespace" ((text.drop pos).take k))
        | none => regexMatch [("invalid", invalidMatcher)] text pos) = _
      rw [hw]
    | none =>
      obtain ⟨c, rest, hdrop⟩ : ∃ c rest, text.drop pos = c :: rest := by
        cases hd : text.drop pos with
        | nil =>
          exfalso
          have hlen := congrArg List.length hd
          rw [List.length_drop] at hlen
          simp only [List.length_nil] at hlen
          omega
        | cons c rest => exact ⟨c, rest, rfl⟩
      have hcne : ¬ c = '\n' := by
        intro hceq
        subst hceq
        have hsome : newlineMatcher text pos = some 1 := by
          unfold newlineMatcher
          rw [hdrop]
          rfl
        rw [hsome] at hn
        cases hn
      have hlen1 : 0 < ((text.drop pos).takeWhile fun ch => !(ch == '\n')).length := by
        rw [hdrop, List.takeWhile_cons, if_pos (by simp [hcne])]
        simp
      have hinv : invalidMatcher text pos =
          some (((text.drop pos).takeWhile fun ch => !(ch == '\n')).length) := by
        show (if ((((text.drop pos).takeWhile fun ch => !(ch == '\n')).length : Nat)
            == 0) = true then none
          else some (((text.drop pos).takeWhile fun ch => !(ch == '\n')).length)) = _
        rw [if_neg (by simp only [beq_iff_eq]; omega)]
      refine ⟨Matched.mk "invalid" ((text.drop pos).take
        (((text.drop pos).takeWhile fun ch => !(ch == '\n')).length)), ?_⟩
      show (match newlineMatcher text pos with
        | some k => some (Matched.mk "newline" ((text.drop pos).take k))
        | none => regexMatch [("whitespace", whitespaceMatcher),
            ("invalid", invalidMatcher)] text pos) = _
      rw [hn]
      show (match whitespaceMatcher text pos with
        | some k => some (Matched.mk "whitespace" ((text.drop pos).take k))
        | none => regexMatch [("invalid", invalidMatcher)] text pos) = _
      rw [hw]
      show (match invalidMatcher text pos with
        | some k => some (Matched.mk "invalid" ((text.drop pos).take k))
        | none => regexMatch [] text pos) = _
      rw [hinv]

theorem bakeRules_total (rules : List (String × Matcher)) (text : Text)
    (pos : Nat) (h : pos < text.length) :
    ∃ m, regexMatch (bakeRules rules) text pos = some m := by
  induction rules with
  | nil => exact implicit_total text pos h
  | cons r rs ih =>
    obtain ⟨name, matcher⟩ := r
    show ∃ m, (match matcher text pos with
      | some n => some (Matched.mk name ((text.drop pos).take n))
      | none => regexMatch (bakeRules rs) text pos) = some m
    cases hr : matcher text pos with
    | some n => exact ⟨Matched.mk name ((text.drop pos).take n), rfl⟩
    | none =>
      obtain ⟨m, hm⟩ := ih
      exact ⟨m, hm⟩

theorem newlineMatcher_nn : MatcherNonNullable newlineMatcher := by
  intro text pos n h
  unfold newlineMatcher at h
  split at h
  · simp only [Option.some.injEq] at h
    omega
  · simp only [Option.some.injEq] at h
    omega
  · cases h

theorem whitespaceMatcher_nn : MatcherNonNullable whitespaceMatcher := by
  intro text pos n h
  simp only [whitespaceMatcher] at h
  split at h
  · cases h
  · simp only [Option.some.injEq] at h
    subst h
    rename_i hcond
    simp only [beq_iff_eq] at hcond
    omega

theorem invalidMatcher_nn : MatcherNonNullable invalidMatcher := by
  intro text pos n h
  simp only [invalidMatcher] at h
  split at h
  · cases h
  · simp only [Option.some.injEq] at h
    subst h
    rename_i hcond
    simp only [beq_iff_eq] at hcond
    omega

theorem bakeRules_nn (rules : List (String × Matcher)) (hnn : NonNullable rules) :
    ∀ p ∈ bakeRules rules, MatcherNonNullable p.2 := by
  intro p hp
  rcases List.mem_append.mp hp with hmem | hmem
  · exact hnn p hmem
  · simp only [implicitRules, List.mem_cons, List.not_mem_nil, or_false] at hmem
    rcases hmem with h | h | h <;> subst h
    · exact newlineMatcher_nn
    · exact whitespaceMatcher_nn
    · exact invalidMatcher_nn

theorem regexMatch_text_len (regex : List (String × Matcher)) (text : Text)
    (pos : Nat) (m : Matched)
    (hnn : ∀ p ∈ regex, MatcherNonNullable p.2) (h : pos < text.length)
    (hm : regexMatch regex text pos = some m) : 1 ≤ m.text.length := by
  induction regex with
  | nil => cases hm
  | cons r rs ih =>
    obtain ⟨name, matcher⟩ := r
    unfold regexMatch at hm
    split at hm
    case h_1 n hn =>
      simp only [Option.some.injEq] at hm
      subst hm
      show 1 ≤ ((text.drop pos).take n).length
      rw [List.length_take, List.length_drop]
      have h1 : 1 ≤ n := hnn (name, matcher) (by simp) text pos n hn
      omega
    case h_2 =>
      exact ih (fun p hp => hnn p (List.mem_cons_of_mem _ hp)) hm

/-- Claim C6 (amended): `bake_regex` compiles the scope's rules in
declaration order followed by the implicit `newline`, `whitespace` and
catch-all `invalid` rules; while input remains the match step always
produces a token, and — provided no rule can match the empty string — the
matched text is at least one character, so the position always advances.
(A nullable rule such as `[a-z]*` produces an empty token without
advancing — see the counterexample.) -/
theorem claim_c6 :
    (∀ s : StreamState, (bakeRegex s).regex = s.syntax_rules ++
      [("newline", newlineMatcher), ("whitespace", whitespaceMatcher),
       ("invalid", invalidMatcher)]) ∧
    (∀ (rules : List (String × Matcher)) (text : Text) (pos : Nat),
      pos < text.length → ∃ m, regexMatch (bakeRules rules) text pos = some m) ∧
    (∀ (rules : List (String × Matcher)) (text : Text) (pos : Nat) (m : Matched),
      NonNullable rules → pos < text.length →
      regexMatch (bakeRules rules) text pos = some m → 1 ≤ m.text.length) := by
  refine ⟨fun s => rfl, bakeRules_total, ?_⟩
  intro rules text pos m hnn h hm
  exact regexMatch_text_len (bakeRules rules) text pos m (bakeRules_nn rules hnn) h hm

/-- Witness for C6: a one-character rule over the input `"a"`. -/
theorem claim_c6_witness :
    (∃ m, regexMatch (bakeRules [("letter", fun _ _ => some 1)]) ("a".data) 0 =
      some m) ∧
    (∀ m, regexMatch (bakeRules [("letter", fun _ _ => some 1)]) ("a".data) 0 =
      some m → 1 ≤ m.text.length) := by
  constructor
  · exact claim_c6.2.1 [("letter", fun _ _ => some 1)] ("a".data) 0 (by decide)
  · intro m hm
    refine claim_c6.2.2 [("letter", fun _ _ => some 1)] ("a".data) 0 m ?_
      (by decide) hm
    intro p hp text pos n h
    simp only [List.mem_singleton] at hp
    subst hp
    simp only at h
    injection h with h
    omega

/-- Counterexample for C6 as stated: with the nullable rule `[a-z]*` over
the input `"1"`, the match step produces a (`word`, empty text) token and
the position does not advance. -/
theorem claim_c6_counterexample :
    (genNextState c6state).map
        (fun s' => (s'.preprocessed_pos, s'.tokens.length, s'.tokens.map Token.type)) =
      some (0, 1, ["word"]) ∧
    c6state.preprocessed_pos = 0 ∧ c6state.tokens.length = 0 :=
  ⟨rfl, rfl, rfl⟩

/-- Witness for C5: a syntax scope with an identity body on a fresh
stream. -/
theorem claim_c5_witness :
    (syntaxScope (initStream ("hi".data) none) [("word", some wordMatcher)]
      id).syntax_rules = (initStream ("hi".data) none).syntax_rules ∧
    (syntaxScope (initStream ("hi".data) none) [("word", some wordMatcher)]
      id).preprocessed_pos = 0 := by
  have h := claim_c5 (initStream ("hi".data) none)
    (syntaxEnter (initStream ("hi".data) none) [("word", some wordMatcher)])
    [("word", some wordMatcher)] id rfl (by decide)
  exact ⟨h.1, (h.2.2.2.2.1 (by decide)).1⟩

end Tokenstream
